import Mathlib

/-!
Verification of the CortexStream continuous-batching inference runtime.

This file gives a shallow embedding of the core data structures and
operations of the repository (block allocator, KV cache bookkeeping,
request, scheduler, engine decode path) and proves or refutes the frozen
claims about them.

Modelling conventions:
* C++ `int` fields that can legitimately be negative (handle fields,
  requested block counts, `maxTokens`) are modelled as `Int`; quantities
  that are always non-negative (block indices inside the pool, sizes,
  token counts) are modelled as `Nat`.  None of the claims depends on
  machine-integer overflow, so no modular reduction is applied.
* `std::vector<bool> freeList_` is modelled as a total function
  `Nat → Bool`; only indices below `totalBlocks` are ever consulted by
  the statistics loops, exactly as in the source.
* `std::map<int, std::deque<int>> buddyFreeLists_` is modelled as a total
  function `Nat → List Nat` (an absent key and an empty deque are
  observationally identical in the source: every read first checks
  `count`/`find` or gets a default-constructed empty deque).
* `std::sort` inside `buddyCoalesce`, `buildPrefillBatch` and
  `buildDecodeBatch` is modelled by `List.insertionSort`, a sorting
  function agreeing with the comparator; for the deque/vector sizes that
  arise here (at most `maxBatchSize`, resp. one deque) libstdc++'s
  `std::sort` performs exactly a stable insertion sort.
* recursion in `buddyAllocate` and `buddyCoalesce` is driven by an
  explicit fuel argument so that the functions are structurally
  recursive and kernel-evaluable; callers pass `totalBlocks + 1`, which
  strictly dominates the recursion depth of the C++ code (the size class
  at least doubles per `buddyAllocate` step and each `buddyCoalesce`
  step consumes one free-list entry, of which there are at most
  `totalBlocks`), so on every state the C++ recursion can reach the fuel
  is never exhausted.
-/

namespace CortexStream

/-- Pointwise update of a function representing the buddy free-list map. -/
def updateF (f : Nat → List Nat) (k : Nat) (v : List Nat) : Nat → List Nat :=
  fun x => if x = k then v else f x

/-- Mark the block range `[start, start+len)` in the free map, with no bounds
check, as in the marking loops of `KVBlockAllocator::buddyAllocate`. -/
def setRange (f : Nat → Bool) (start len : Nat) (b : Bool) : Nat → Bool :=
  fun i => if start ≤ i ∧ i < start + len then b else f i

/-- Mark the block range `[start, start+len)` free, with the
`i >= 0 && i < totalBlocks` bounds check of `KVBlockAllocator::free`. -/
def setRangeBounded (f : Nat → Bool) (start len tb : Nat) (b : Bool) : Nat → Bool :=
  fun i => if start ≤ i ∧ i < start + len ∧ i < tb then b else f i

/-- KVHandle from include/cortexstream/kv_cache.h: a contiguous block
allocation, `{-1, 0}` denoting the invalid handle. -/
structure KVHandle where
  startBlockIndex : Int
  numBlocks : Int
deriving DecidableEq, Repr

/-- Validity test of a handle, from kv_cache.h. -/
def KVHandle.isValid (h : KVHandle) : Bool :=
  h.startBlockIndex ≥ 0 && h.numBlocks > 0

/-- State of KVBlockAllocator from src/cache/kv_cache.cpp: the bounded pool
size, the boolean free map (`freeList_`, true = free) and the buddy
free lists per power-of-two size class (`buddyFreeLists_`). -/
structure KVBlockAllocator where
  totalBlocks : Nat
  freeList : Nat → Bool
  buddyFreeLists : Nat → List Nat

namespace KVBlockAllocator

/-- Loop of `initBuddySystem` computing the largest power of two that is
at most `tb` (`largestPower`), written with explicit fuel; `largestPow`
below supplies fuel `tb`, which dominates the number of doublings. -/
def largestPowAux (tb : Nat) : Nat → Nat → Nat
  | 0, p => p
  | fuel + 1, p => if p * 2 ≤ tb then largestPowAux tb fuel (p * 2) else p

/-- Largest power of two at most `tb` (for `tb ≥ 1`), as computed by the
while loop in `KVBlockAllocator::initBuddySystem`. -/
def largestPow (tb : Nat) : Nat := largestPowAux tb tb 1

/-- Constructor `KVBlockAllocator(totalBlocks)` followed by
`initBuddySystem()`: every block free, and the single run
`[0, largestPower)` seeded into the largest power-of-two size class
(only when `largestPower ≤ totalBlocks`, i.e. `totalBlocks ≥ 1`). -/
def init (tb : Nat) : KVBlockAllocator :=
  { totalBlocks := tb
    freeList := fun _ => true
    buddyFreeLists := fun s => if 1 ≤ tb ∧ s = largestPow tb then [0] else [] }

/-- Loop of `KVBlockAllocator::allocate` computing the smallest power of two
that is at least `n` (`allocSize`); fuel `n` dominates the number of
doublings. -/
def pow2GeAux (n : Nat) : Nat → Nat → Nat
  | 0, p => p
  | fuel + 1, p => if p < n then pow2GeAux n fuel (p * 2) else p

/-- Smallest power of two at least `n`, as computed by the while loop in
`KVBlockAllocator::allocate`. -/
def pow2Ge (n : Nat) : Nat := pow2GeAux n n 1

/-- Helper of `KVBlockAllocator::buddyAllocate`: pop the front of the free
list of class `size`, mark the run used, return the handle. -/
def popClass (st : KVBlockAllocator) (size startIdx : Nat) (rest : List Nat) :
    KVHandle × KVBlockAllocator :=
  (⟨(startIdx : Int), (size : Int)⟩,
    { st with
      freeList := setRange st.freeList startIdx size false
      buddyFreeLists := updateF st.buddyFreeLists size rest })

/-- Split branch of `KVBlockAllocator::buddyAllocate`: pop the front of the
doubled size class, split it into two buddies, push the upper buddy onto
the free list of class `size`, mark the lower buddy used and return it. -/
def splitClass (st : KVBlockAllocator) (size largeBlock : Nat) (rest2 : List Nat) :
    KVHandle × KVBlockAllocator :=
  let buddy2 := largeBlock + size
  let st1 :=
    { st with
      buddyFreeLists :=
        updateF (updateF st.buddyFreeLists (size * 2) rest2) size
          ((updateF st.buddyFreeLists (size * 2) rest2) size ++ [buddy2]) }
  (⟨(largeBlock : Int), (size : Int)⟩,
    { st1 with freeList := setRange st1.freeList largeBlock size false })

/-- KVBlockAllocator::buddyAllocate from src/cache/kv_cache.cpp.  The fuel
argument only bounds the tail recursion into the doubled size class;
the caller `allocate` passes `totalBlocks + 1`, which the doubling
recursion of the source can never exhaust. -/
def buddyAllocate (st : KVBlockAllocator) : Nat → Nat → KVHandle × KVBlockAllocator
  | fuel, size =>
    match st.buddyFreeLists size with
    | startIdx :: rest => popClass st size startIdx rest
    | [] =>
      if st.totalBlocks < size * 2 then (⟨-1, 0⟩, st)
      else
        match st.buddyFreeLists (size * 2) with
        | largeBlock :: rest2 => splitClass st size largeBlock rest2
        | [] =>
          match fuel with
          | 0 => (⟨-1, 0⟩, st)
          | fuel' + 1 => buddyAllocate st fuel' (size * 2)

/-- KVBlockAllocator::allocate from src/cache/kv_cache.cpp: reject
non-positive requests, round up to the next power of two, reject requests
larger than the pool, delegate to `buddyAllocate`. -/
def allocate (st : KVBlockAllocator) (blocksNeeded : Int) : KVHandle × KVBlockAllocator :=
  if blocksNeeded ≤ 0 then (⟨-1, 0⟩, st)
  else
    let allocSize := pow2Ge blocksNeeded.toNat
    if st.totalBlocks < allocSize then (⟨-1, 0⟩, st)
    else buddyAllocate st (st.totalBlocks + 1) allocSize

/-- Scan of `KVBlockAllocator::buddyCoalesce` looking for the first pair of
list-adjacent entries `b1, b2` with `b2 = b1 + size`; returns the first
such `b1` together with the list with both entries erased. -/
def findAdjacent (size : Nat) : List Nat → Option (Nat × List Nat)
  | b1 :: b2 :: rest =>
    if b2 = b1 + size then some (b1, rest)
    else
      match findAdjacent size (b2 :: rest) with
      | some (x, l) => some (x, b1 :: l)
      | none => none
  | _ => none

/-- Predicate holding when no two consecutive entries of the list are
adjacent runs of length `size` (so the scan of `buddyCoalesce` merges
nothing). -/
def noAdjPair (size : Nat) : List Nat → Bool
  | b1 :: b2 :: rest => (b2 ≠ b1 + size) && noAdjPair size (b2 :: rest)
  | _ => true

/-- Sort used inside `buddyCoalesce` (`std::sort` over the deque): a sorted
permutation of the input, realised by a stable insertion sort. -/
def sortNat (l : List Nat) : List Nat := List.insertionSort (· ≤ ·) l

/-- KVBlockAllocator::buddyCoalesce from src/cache/kv_cache.cpp: sort the
size class, merge the first adjacent pair into the doubled class and
recurse there, otherwise stop (keeping the sorted order, since the
source sorts the deque in place).  Fuel bounds the recursion; caller
`free` passes `totalBlocks + 1`, which dominates the number of merges
possible in any state whose free lists hold at most `totalBlocks`
entries. -/
def buddyCoalesce (st : KVBlockAllocator) : Nat → Nat → KVBlockAllocator
  | fuel, size =>
    let l := st.buddyFreeLists size
    if l.length < 2 then st
    else
      let sorted := sortNat l
      match findAdjacent size sorted with
      | none => { st with buddyFreeLists := updateF st.buddyFreeLists size sorted }
      | some (b1, rest) =>
        let st1 := { st with buddyFreeLists := updateF st.buddyFreeLists size rest }
        let st2 :=
          { st1 with
            buddyFreeLists :=
              updateF st1.buddyFreeLists (size * 2)
                (st1.buddyFreeLists (size * 2) ++ [b1]) }
        match fuel with
        | 0 => st2
        | fuel' + 1 => buddyCoalesce st2 fuel' (size * 2)

/-- KVBlockAllocator::free from src/cache/kv_cache.cpp: ignore invalid
handles, mark the range free (bounds-checked), push the run onto the
free list of its size class, coalesce. -/
def free (st : KVBlockAllocator) (h : KVHandle) : KVBlockAllocator :=
  if !h.isValid then st
  else
    let start := h.startBlockIndex.toNat
    let num := h.numBlocks.toNat
    let st1 := { st with freeList := setRangeBounded st.freeList start num st.totalBlocks true }
    let st2 :=
      { st1 with buddyFreeLists := updateF st1.buddyFreeLists num (st1.buddyFreeLists num ++ [start]) }
    buddyCoalesce st2 (st.totalBlocks + 1) num

/-- Representation invariant of the allocator state, maintained by the
initial state and by allocate/free: each buddy free list is sorted
ascending with no two consecutive entries coalescible (every insertion in
the source is immediately followed by the sorting/merging pass of
`buddyCoalesce`, and splits only ever land in empty lists), and each
entry describes an in-bounds run of free blocks. -/
structure AllocWF (st : KVBlockAllocator) : Prop where
  sorted : ∀ s, List.Sorted (· ≤ ·) (st.buddyFreeLists s)
  noAdj : ∀ s, noAdjPair s (st.buddyFreeLists s) = true
  bounded : ∀ s x, x ∈ st.buddyFreeLists s → x + s ≤ st.totalBlocks
  freeRuns : ∀ s x, x ∈ st.buddyFreeLists s → ∀ i, x ≤ i → i < x + s → st.freeList i = true

/-- Invariant carried along reachable allocator states for the analysis of
the non-power-of-two pool: every buddy free-list entry, and every handle
currently held live by a client, lies inside the prefix
`[0, largestPow totalBlocks)`, while every block at or above
`largestPow totalBlocks` is free. -/
structure PoolBounded (tb : Nat) (st : KVBlockAllocator) (live : List KVHandle) : Prop where
  tot : st.totalBlocks = tb
  entries : ∀ s y, y ∈ st.buddyFreeLists s → y + s ≤ largestPow tb
  liveBdd : ∀ h ∈ live, h.startBlockIndex.toNat + h.numBlocks.toNat ≤ largestPow tb
  highFree : ∀ i, largestPow tb ≤ i → st.freeList i = true

/-- Reachable allocator states together with the multiset of live handles:
the state after construction, after any `allocate` call (a valid result
becomes live), and after `free` of a live handle (the discipline of
`KVCache`, whose `freeFor` only ever frees handles previously returned by
`allocate` and not yet freed). -/
inductive Reach (tb : Nat) : KVBlockAllocator → List KVHandle → Prop where
  | init : Reach tb (init tb) []
  | alloc {st : KVBlockAllocator} {live : List KVHandle} (n : Int) :
      Reach tb st live →
      Reach tb (st.allocate n).2
        (if (st.allocate n).1.isValid = true then (st.allocate n).1 :: live else live)
  | free {st : KVBlockAllocator} {live : List KVHandle} {h : KVHandle} :
      Reach tb st live → h ∈ live → Reach tb (st.free h) (live.erase h)

/-- KVBlockAllocator::freeBlocks from src/cache/kv_cache.cpp: count of free
entries of the free map. -/
def freeBlocks (st : KVBlockAllocator) : Nat :=
  (List.range st.totalBlocks).countP st.freeList

/-- KVBlockAllocator::usedBlocks from src/cache/kv_cache.cpp. -/
def usedBlocks (st : KVBlockAllocator) : Nat :=
  (List.range st.totalBlocks).countP (fun i => !st.freeList i)

end KVBlockAllocator

/-- Per-sequence KV allocation metadata, from kv_cache.h. -/
structure SequenceKVEntry where
  handle : KVHandle
  tokensUsed : Int := 0
  maxAllowed : Int := 0
deriving DecidableEq, Repr

/-- State of KVCache from src/cache/kv_cache.cpp restricted to the fields the
claims touch: the block size, the block allocator, and the sequence map
`sequences_` (modelled as a total function into `Option`, matching the
`unordered_map` lookups).  The K/V float arenas, the layer/head geometry
and the view accessors are pure reads of those arenas and play no part in
any claim. -/
structure KVCache where
  blockSize : Nat
  allocator : KVBlockAllocator
  sequences : String → Option SequenceKVEntry

namespace KVCache

/-- KVCache::allocateFor from src/cache/kv_cache.cpp: reject duplicate ids,
compute the ceiling block count, delegate to the allocator, record the
sequence entry on success. -/
def allocateFor (c : KVCache) (requestId : String) (initialTokens : Nat) : Bool × KVCache :=
  if (c.sequences requestId).isSome then (false, c)
  else
    let blocksNeeded := (initialTokens + c.blockSize - 1) / c.blockSize
    let maxAllowed := blocksNeeded * c.blockSize
    let res := c.allocator.allocate (blocksNeeded : Int)
    if !res.1.isValid then (false, { c with allocator := res.2 })
    else
      (true,
        { c with
          allocator := res.2
          sequences := fun x =>
            if x = requestId then
              some { handle := res.1, tokensUsed := (initialTokens : Int), maxAllowed := (maxAllowed : Int) }
            else c.sequences x })

/-- KVCache::freeFor from src/cache/kv_cache.cpp: release the entry's handle
back to the allocator and drop the entry; no-op on unknown ids. -/
def freeFor (c : KVCache) (requestId : String) : KVCache :=
  match c.sequences requestId with
  | none => c
  | some entry =>
    { c with
      allocator := c.allocator.free entry.handle
      sequences := fun x => if x = requestId then none else c.sequences x }

end KVCache

/-- Request lifecycle states.  The `RequestState` enumeration is referenced
by src/engine/scheduler.cpp, src/engine/engine.cpp and the examples but its
declaration is not among the headers under src/; the five states are
modelled from the spec's lifecycle `{Pending, Prefilling, Decoding,
Finished, Failed}`. -/
inductive RequestState where
  | Pending
  | Prefilling
  | Decoding
  | Finished
  | Failed
deriving DecidableEq, Repr

/-- SamplingParams from include/cortexstream/request.h.  The `float` fields
are modelled as `Rat`; every comparison in `isValid` is against the exact
float literals 0, 1, 2 and 100, which ℚ mirrors exactly. -/
structure SamplingParams where
  temperature : Rat := 1
  topK : Int := 40
  topP : Rat := 9 / 10
  greedy : Bool := false
  seed : Nat := 0
  repetitionPenalty : Rat := 1
deriving DecidableEq, Repr

/-- SamplingParams::isValid from src/request/request.cpp. -/
def SamplingParams.isValid (p : SamplingParams) : Bool :=
  if p.temperature < 0 ∨ 2 < p.temperature then false
  else if p.topK < 1 ∨ 100 < p.topK then false
  else if p.topP ≤ 0 ∨ 1 < p.topP then false
  else if p.repetitionPenalty < 0 ∨ 2 < p.repetitionPenalty then false
  else true

/-- Request from include/cortexstream/request.h and src/request/request.cpp.
The atomic `cancelled_` flag is a plain `Bool` here: the engine runs the
modelled paths single-threadedly and the flag is only ever read, never
cleared.  `callbackLog` models the sequence of invocations of the stored
`tokenCallback_` (one entry per call of the callback, with its two
arguments); a request with no callback installed simply never has the log
read.  The `state` field models the `setState`/`getState` accessors used
by scheduler.cpp and engine.cpp, which are absent from the header under
src/; the spec fixes their meaning (lifecycle state of the request). -/
structure Request where
  id : String
  prompt : String := ""
  inputTokens : List Int
  maxTokens : Int := 256
  minTokens : Int := 0
  stopTokens : List Int := []
  stopString : String := ""
  samplingParams : SamplingParams := {}
  priority : Int := 0
  allowPrefillOnly : Bool := false
  reuseCache : Bool := false
  freeCacheOnFinish : Bool := true
  streaming : Bool := true
  arrivalTimestampNs : Nat := 0
  cancelled : Bool := false
  state : RequestState := .Pending
  generatedTokens : List Int := []
  finished : Bool := false
  failed : Bool := false
  errorMessage : String := ""
  callbackLog : List (Int × Bool) := []
deriving DecidableEq, Repr

namespace Request

/-- Request::getPromptLength, called by scheduler.cpp and the examples but
absent from the header under src/; it is the prompt-token count, i.e.
`getInputTokenCount` of request.cpp. -/
def getPromptLength (r : Request) : Nat := r.inputTokens.length

/-- Request::getGeneratedLength, called by engine.cpp and the examples but
absent from the header under src/; it is `getGeneratedTokenCount` of
request.cpp. -/
def getGeneratedLength (r : Request) : Nat := r.generatedTokens.length

/-- Request::isCancelled from src/request/request.cpp. -/
def isCancelled (r : Request) : Bool := r.cancelled

/-- Request::cancel from src/request/request.cpp: sets the atomic flag and
nothing else. -/
def cancel (r : Request) : Request := { r with cancelled := true }

/-- Request::addGeneratedToken from src/request/request.cpp: a plain
`push_back` onto `generatedTokens_`. -/
def addGeneratedToken (r : Request) (token : Int) : Request :=
  { r with generatedTokens := r.generatedTokens ++ [token] }

/-- Request::notifyToken from src/request/request.cpp: invoke the stored
token callback (recorded in `callbackLog`) with the given arguments. -/
def notifyToken (r : Request) (token : Int) (finished : Bool) : Request :=
  { r with callbackLog := r.callbackLog ++ [(token, finished)] }

/-- Request::addToken, called by engine.cpp but absent from the header under
src/.  It is identified with the repository's own append operation
`addGeneratedToken` of request.cpp, to which it is the engine-side name. -/
def addToken (r : Request) (token : Int) : Request := r.addGeneratedToken token

/-- Request::setSamplingParams from src/request/request.cpp: throws
`std::invalid_argument("Invalid sampling parameters")` on invalid input
(modelled as `Except.error`), otherwise replaces the parameters. -/
def setSamplingParams (r : Request) (params : SamplingParams) : Except String Request :=
  if !params.isValid then Except.error "Invalid sampling parameters"
  else Except.ok { r with samplingParams := params }

/-- Request::setError from src/request/request.cpp. -/
def setError (r : Request) (message : String) : Request :=
  { r with failed := true, errorMessage := message }

end Request

/-- Batch from include/cortexstream/scheduler.h. -/
structure Batch where
  requests : List Request
  sequenceLengths : List Int
  batchSize : Int
  isPrefill : Bool

/-- Scheduler state from include/cortexstream/scheduler.h: the admission
queue, the active set and the finished set are lists of requests (the
shared_ptr indirection is modelled by identifying requests through their
ids; every modelled state keeps ids unique). -/
structure Scheduler where
  maxBatchSize : Int
  pendingQueue : List Request := []
  activeRequests : List Request := []
  finishedRequests : List Request := []

namespace Scheduler

/-- Loop of `buildPrefillBatch`/`buildDecodeBatch` pushing sorted requests
into the batch and breaking once `batch.batchSize >= maxBatchSize`
(the check runs after the push, so with `maxBatchSize <= 0` one request
is still pushed, exactly as in the source). -/
def takeLoop (maxB : Int) : List Request → Int → List Request
  | [], _ => []
  | r :: rest, k => r :: (if maxB ≤ k + 1 then [] else takeLoop maxB rest (k + 1))

/-- Scheduler::buildPrefillBatch from src/engine/scheduler.cpp: filter the
active set for Prefilling requests, sort by ascending prompt length
(`std::sort` with a length-only comparator, modelled as a stable
insertion sort, which is what libstdc++ performs at these batch sizes),
then fill the batch up to `maxBatchSize`. -/
def buildPrefillBatch (s : Scheduler) : Batch :=
  let prefillReqs := s.activeRequests.filter (fun r => r.state == RequestState.Prefilling)
  let sorted := List.insertionSort (fun a b => a.getPromptLength ≤ b.getPromptLength) prefillReqs
  let reqs := takeLoop s.maxBatchSize sorted 0
  { requests := reqs
    sequenceLengths := reqs.map (fun r => (r.getPromptLength : Int))
    batchSize := (reqs.length : Int)
    isPrefill := true }

/-- Scheduler::buildDecodeBatch from src/engine/scheduler.cpp: filter the
active set for Decoding requests, sort by ascending generated length,
fill the batch up to `maxBatchSize`. -/
def buildDecodeBatch (s : Scheduler) : Batch :=
  let decodeReqs := s.activeRequests.filter (fun r => r.state == RequestState.Decoding)
  let sorted := List.insertionSort (fun a b => a.getGeneratedLength ≤ b.getGeneratedLength) decodeReqs
  let reqs := takeLoop s.maxBatchSize sorted 0
  { requests := reqs
    sequenceLengths := reqs.map (fun r => (r.getGeneratedLength : Int) + 1)
    batchSize := (reqs.length : Int)
    isPrefill := false }

/-- Scan of `std::find_if` in `markRequestFinished`/`markRequestFailed`:
remove the first request with the given id, if any. -/
def removeFirst (id : String) : List Request → Option (Request × List Request)
  | [] => none
  | r :: rest =>
    if r.id == id then some (r, rest)
    else
      match removeFirst id rest with
      | some (x, l) => some (x, r :: l)
      | none => none

/-- Scheduler::markRequestFinished from src/engine/scheduler.cpp: first
active request with the id is set to Finished, moved to the finished
set and removed from the active set. -/
def markRequestFinished (s : Scheduler) (requestId : String) : Scheduler :=
  match removeFirst requestId s.activeRequests with
  | none => s
  | some (r, rest) =>
    { s with
      activeRequests := rest
      finishedRequests := s.finishedRequests ++ [{ r with state := .Finished }] }

/-- Scheduler::markRequestFailed from src/engine/scheduler.cpp: first active
request with the id is set to Failed and removed from the active set
(the scheduler keeps no reference to it afterwards). -/
def markRequestFailed (s : Scheduler) (requestId : String) : Scheduler :=
  match removeFirst requestId s.activeRequests with
  | none => s
  | some (_, rest) => { s with activeRequests := rest }

/-- Loop of Scheduler::markRequestReady from src/engine/scheduler.cpp: the
first active request with the id moves Prefilling → Decoding; the scan
stops at the first id match. -/
def markReadyLoop (requestId : String) : List Request → List Request
  | [] => []
  | r :: rest =>
    if r.id == requestId then
      (if r.state == RequestState.Prefilling then { r with state := .Decoding } else r) :: rest
    else r :: markReadyLoop requestId rest

/-- Scheduler::markRequestReady from src/engine/scheduler.cpp. -/
def markRequestReady (s : Scheduler) (requestId : String) : Scheduler :=
  { s with activeRequests := markReadyLoop requestId s.activeRequests }

/-- Linear scan for a request with the given id. -/
def findReq (id : String) : List Request → Option Request
  | [] => none
  | r :: rest => if r.id == id then some r else findReq id rest

/-- Scheduler::getRequest from src/engine/scheduler.cpp: search the active
set, then the finished set. -/
def getRequest (s : Scheduler) (requestId : String) : Option Request :=
  match findReq requestId s.activeRequests with
  | some r => some r
  | none => findReq requestId s.finishedRequests

end Scheduler

/-- EngineStats from include/cortexstream/engine.h restricted to the
counters the engine code updates (`avgBatchSize` and `totalLatency` are
never written anywhere in src/engine/engine.cpp). -/
structure EngineStats where
  tokensProcessed : Nat := 0
  requestsCompleted : Nat := 0
  requestsFailed : Nat := 0
deriving DecidableEq, Repr

/-- State of InferenceEngine relevant to the decode path: the scheduler it
drives and its stats.  The KV cache is carried by the real engine too but
`emitTokens` and `handleBackendFailure` never touch it. -/
structure InferenceEngine where
  sched : Scheduler
  stats : EngineStats

namespace InferenceEngine

/-- Write-through of a mutation of a shared Request object: engine.cpp
mutates the request through its `shared_ptr`, which is the same object
the scheduler's containers reference, so the update is applied to every
container entry bearing the id. -/
def writeReq (id : String) (f : Request → Request) (l : List Request) : List Request :=
  l.map (fun r => if r.id == id then f r else r)

/-- Apply a shared-object mutation of the request with the given id across
the scheduler state. -/
def applyReq (e : InferenceEngine) (id : String) (f : Request → Request) : InferenceEngine :=
  { e with
    sched :=
      { e.sched with
        pendingQueue := writeReq id f e.sched.pendingQueue
        activeRequests := writeReq id f e.sched.activeRequests
        finishedRequests := writeReq id f e.sched.finishedRequests } }

/-- InferenceEngine::sampleAndApply from src/engine/engine.cpp: the
`backend->sampleToken` call is wrapped in a try/catch that logs and
returns the fallback token 0.  The backend call is abstracted as an
`Except` value: `error` is a thrown exception, `ok t` a sampled token. -/
def sampleAndApply (res : Except String Int) : Int :=
  match res with
  | .ok t => t
  | .error _ => 0

/-- Body of one iteration of the `emitTokens` row loop from
src/engine/engine.cpp: sample (with fallback 0 on a sampling exception),
append the token to the request, bump `tokensProcessed`, and finish the
request when its generated length has reached `maxTokens`.  `sample` is
the row's logits paired with `backend->sampleToken`, fed the request's
sampling parameters. -/
def emitRow (e : InferenceEngine) (sample : SamplingParams → Except String Int)
    (id : String) : InferenceEngine :=
  match e.sched.getRequest id with
  | none => e
  | some req =>
    let nextToken := sampleAndApply (sample req.samplingParams)
    let e1 := e.applyReq id (fun r => r.addToken nextToken)
    let e2 := { e1 with stats := { e1.stats with tokensProcessed := e1.stats.tokensProcessed + 1 } }
    if (req.getGeneratedLength + 1 : Int) ≥ req.maxTokens then
      { e2 with
        sched := e2.sched.markRequestFinished id
        stats := { e2.stats with requestsCompleted := e2.stats.requestsCompleted + 1 } }
    else e2

/-- Row loop of `emitTokens`: the OpenMP-parallel loop with its per-row
critical sections, processed in row order (the per-row effects commute
up to the interleaving of the critical sections; the claims concern the
final state).  The outer per-row try/catch of the source only writes a
log line, so it contributes no state change. -/
def emitGo (sample : Nat → SamplingParams → Except String Int) :
    List String → Nat → InferenceEngine → InferenceEngine
  | [], _, e => e
  | id :: rest, i, e => emitGo sample rest (i + 1) (emitRow e (sample i) id)

/-- InferenceEngine::emitTokens from src/engine/engine.cpp.  The batch is
the row-ordered list of request ids; `logitsEmpty` models the
`logits.data.empty()` early-out; the logits tensor and
`backend->sampleToken` are abstracted into the per-row function
`sample`. -/
def emitTokens (e : InferenceEngine) (sample : Nat → SamplingParams → Except String Int)
    (batchIds : List String) (logitsEmpty : Bool) : InferenceEngine :=
  if batchIds.isEmpty || logitsEmpty then e else emitGo sample batchIds 0 e

/-- InferenceEngine::handleBackendFailure from src/engine/engine.cpp: log
and increment `stats.requestsFailed` by one. -/
def handleBackendFailure (e : InferenceEngine) : InferenceEngine :=
  { e with stats := { e.stats with requestsFailed := e.stats.requestsFailed + 1 } }

/-- Try/catch of `mainLoop` around `processPrefill`/`processDecode` from
src/engine/engine.cpp: a thrown backend exception is caught and handled
by `handleBackendFailure`; otherwise the stage's resulting state
stands. -/
def tickCatch (e : InferenceEngine) (body : Except String InferenceEngine) : InferenceEngine :=
  match body with
  | .ok e' => e'
  | .error _ => handleBackendFailure e

/-- One decode stage of `mainLoop`: skip an empty batch, otherwise run
`processDecode` under the loop's try/catch.  The backend's
`decode` call is abstracted as `backendDecode`: a thrown exception, or
the returned logits in the form of the per-row sampler together with
the emptiness of the logits data. -/
def decodeTick (e : InferenceEngine) (batchIds : List String)
    (backendDecode : Except String ((Nat → SamplingParams → Except String Int) × Bool)) :
    InferenceEngine :=
  if batchIds.isEmpty then e
  else tickCatch e (backendDecode.map (fun sl => e.emitTokens sl.1 batchIds sl.2))

/-- One decode stage with the batch built by the scheduler, as in
`mainLoop` steps 4-5. -/
def fullDecodeTick (e : InferenceEngine)
    (backendDecode : Except String ((Nat → SamplingParams → Except String Int) × Bool)) :
    InferenceEngine :=
  e.decodeTick ((e.sched.buildDecodeBatch).requests.map (fun r => r.id)) backendDecode

end InferenceEngine

/-! Concrete fixtures used by the claim counterexamples and witnesses. -/

/-- Request of scenario 5 of the spec: `stopTokens = {42}`, `maxTokens = 50`,
already decoding with no generated token yet. -/
def stopReq : Request :=
  { id := "R", inputTokens := [1], maxTokens := 50, stopTokens := [42], state := .Decoding }

/-- Engine driving exactly the request `stopReq`. -/
def stopEngine : InferenceEngine :=
  { sched := { maxBatchSize := 32, activeRequests := [stopReq] }, stats := {} }

/-- One full decode tick against a backend whose sampler returns the token
`t` for every row. -/
def okTick (t : Int) (e : InferenceEngine) : InferenceEngine :=
  e.fullDecodeTick (Except.ok (fun _ _ => Except.ok t, false))

/-- State of `stopEngine` after three decode ticks in which the backend
samples 7, 8 and then the stop token 42. -/
def stopEngine3 : InferenceEngine := okTick 42 (okTick 8 (okTick 7 stopEngine))

/-- Cancelled decoding request: `cancel()` has been called before the next
decode tick. -/
def cancelReq : Request :=
  { id := "C", inputTokens := [1], maxTokens := 100, state := .Decoding }

/-- Engine driving exactly the already-cancelled request. -/
def cancelEngine : InferenceEngine :=
  { sched := { maxBatchSize := 32, activeRequests := [cancelReq.cancel] }, stats := {} }

/-- State of `cancelEngine` after one decode tick sampling token 7. -/
def cancelEngine1 : InferenceEngine := okTick 7 cancelEngine

/-- Two decoding requests used by the sampling-failure and backend-failure
scenarios. -/
def decReq1 : Request := { id := "f1", inputTokens := [1], maxTokens := 10, state := .Decoding }

/-- Second decoding request of the failure scenarios. -/
def decReq2 : Request := { id := "f2", inputTokens := [2], maxTokens := 10, state := .Decoding }

/-- Engine driving `decReq1` and `decReq2`. -/
def decEngine : InferenceEngine :=
  { sched := { maxBatchSize := 32, activeRequests := [decReq1, decReq2] }, stats := {} }

/-- Per-row sampler in which row 0 throws and row 1 samples token 9. -/
def throwRow0 : Nat → SamplingParams → Except String Int :=
  fun i _ => if i = 0 then Except.error "sampler exploded" else Except.ok 9

/-- Requests with equal prompt lengths whose arrival order is opposite to
their admission order: `reqArr1` arrived first (timestamp 1) but was
admitted second. -/
def reqArr1 : Request :=
  { id := "A", inputTokens := [6], arrivalTimestampNs := 1, state := .Prefilling }

/-- The later-arriving request (timestamp 2), admitted first. -/
def reqArr2 : Request :=
  { id := "B", inputTokens := [5], arrivalTimestampNs := 2, state := .Prefilling }

/-- Scheduler whose active order is admission order `[reqArr2, reqArr1]`. -/
def tieSched : Scheduler :=
  { maxBatchSize := 32, activeRequests := [reqArr2, reqArr1] }

/-- Fresh KV cache over an 8-block pool with 2 tokens per block. -/
def kvFixture : KVCache :=
  { blockSize := 2, allocator := KVBlockAllocator.init 8, sequences := fun _ => none }

/-- Request with `maxTokens = 0`, exhibiting the missing bound enforcement of
`addGeneratedToken`. -/
def tinyReq : Request := { id := "q", inputTokens := [], maxTokens := 0 }

/-- Sampling parameters with `temperature = 3`: valid under the spec's stated
ranges (`temperature ≥ 0` and so on) but rejected by the source's
`isValid`, which also demands `temperature ≤ 2`. -/
def hotParams : SamplingParams :=
  { temperature := 3, topK := 1, topP := 1, repetitionPenalty := 1 }

/-- Sampling parameters accepted by both the spec's ranges and the source. -/
def warmParams : SamplingParams :=
  { temperature := 1, topK := 40, topP := 1, repetitionPenalty := 1 }

/-- Identity and failure flag of a request: the projection used to state
that the decode row loop never marks any request failed. -/
def reqTag (r : Request) : String × Bool := (r.id, r.failed)

/-! Helper lemmas about the free-list map and range-marking functions. -/

theorem updateF_apply_self (f : Nat → List Nat) (k : Nat) (v : List Nat) :
    updateF f k v k = v := by
  simp [updateF]

theorem updateF_apply_ne (f : Nat → List Nat) {k x : Nat} (v : List Nat) (h : x ≠ k) :
    updateF f k v x = f x := by
  simp [updateF, h]

theorem updateF_self (f : Nat → List Nat) (k : Nat) : updateF f k (f k) = f := by
  funext x
  by_cases h : x = k <;> simp [updateF, h]

theorem updateF_updateF (f : Nat → List Nat) (k : Nat) (v w : List Nat) :
    updateF (updateF f k v) k w = updateF f k w := by
  funext x
  by_cases h : x = k <;> simp [updateF, h]

theorem updateF_comm (f : Nat → List Nat) {k j : Nat} (v w : List Nat) (h : k ≠ j) :
    updateF (updateF f k v) j w = updateF (updateF f j w) k v := by
  funext x
  by_cases h1 : x = j <;> by_cases h2 : x = k <;> simp_all [updateF]

/-- Releasing a just-marked run restores the free map, provided the run was
free beforehand and lies inside the pool. -/
theorem setRange_restore (f : Nat → Bool) (x t tb : Nat) (hle : x + t ≤ tb)
    (hfree : ∀ i, x ≤ i → i < x + t → f i = true) :
    setRangeBounded (setRange f x t false) x t tb true = f := by
  funext i
  by_cases h : x ≤ i ∧ i < x + t
  · have hi : i < tb := by omega
    simp [setRangeBounded, setRange, h, hi, (hfree i h.1 h.2).symm]
  · simp only [setRangeBounded, setRange, if_neg h]
    rw [if_neg]
    intro hc
    exact h ⟨hc.1, hc.2.1⟩

namespace KVBlockAllocator

/-! Properties of the sort used inside buddyCoalesce. -/

theorem sortNat_perm (l : List Nat) : (sortNat l).Perm l :=
  List.perm_insertionSort _ l

theorem sortNat_sorted (l : List Nat) : List.Sorted (· ≤ ·) (sortNat l) :=
  List.sorted_insertionSort _ l

/-- A sorted permutation of the input is exactly what `sortNat` returns. -/
theorem sortNat_eq_of_sorted {l m : List Nat} (hp : l.Perm m)
    (hs : List.Sorted (· ≤ ·) m) : sortNat l = m :=
  List.eq_of_perm_of_sorted ((sortNat_perm l).trans hp) (sortNat_sorted l) hs

/-- When no consecutive entries form an adjacent pair, the coalescing scan
finds nothing. -/
theorem findAdjacent_eq_none {s : Nat} : ∀ {l : List Nat},
    noAdjPair s l = true → findAdjacent s l = none
  | [], _ => rfl
  | [_], _ => rfl
  | b1 :: b2 :: rest, h => by
    simp only [noAdjPair, Bool.and_eq_true, decide_eq_true_eq] at h
    have ih := findAdjacent_eq_none (l := b2 :: rest) h.2
    simp [findAdjacent, h.1, ih]

/-- Entries named by a successful coalescing scan are entries of the scanned
list, and the remainder is contained in it. -/
theorem findAdjacent_mem {s : Nat} : ∀ {l : List Nat} {b1 : Nat} {rest : List Nat},
    findAdjacent s l = some (b1, rest) →
    b1 ∈ l ∧ b1 + s ∈ l ∧ ∀ x ∈ rest, x ∈ l
  | [], _, _, h => by simp [findAdjacent] at h
  | [_], _, _, h => by simp [findAdjacent] at h
  | a :: b :: l', b1, rest, h => by
    by_cases hab : b = a + s
    · rw [findAdjacent, if_pos hab] at h
      injection h with h
      obtain ⟨h1, h2⟩ := Prod.mk.injEq .. ▸ h
      subst h1; subst h2
      refine ⟨by simp, ?_, fun x hx => by simp [hx]⟩
      rw [← hab]; simp
    · rw [findAdjacent, if_neg hab] at h
      rcases hfa : findAdjacent s (b :: l') with _ | ⟨x, l2⟩ <;> rw [hfa] at h
      · simp at h
      · injection h with h
        obtain ⟨h1, h2⟩ := Prod.mk.injEq .. ▸ h
        subst h1; subst h2
        obtain ⟨m1, m2, m3⟩ := findAdjacent_mem hfa
        refine ⟨List.mem_cons_of_mem _ m1, List.mem_cons_of_mem _ m2, fun y hy => ?_⟩
        rcases List.mem_cons.mp hy with hy | hy
        · simp [hy]
        · exact List.mem_cons_of_mem _ (m3 y hy)

/-- Auxiliary bound for the `initBuddySystem` loop. -/
theorem largestPowAux_le (tb : Nat) : ∀ fuel p, p ≤ tb → largestPowAux tb fuel p ≤ tb
  | 0, p, hp => hp
  | fuel + 1, p, hp => by
    unfold largestPowAux
    by_cases h : p * 2 ≤ tb
    · rw [if_pos h]
      exact largestPowAux_le tb fuel (p * 2) h
    · rw [if_neg h]
      exact hp

/-- The seeded run of the initial state fits the pool. -/
theorem largestPow_le {tb : Nat} (h : 1 ≤ tb) : largestPow tb ≤ tb :=
  largestPowAux_le tb tb 1 h

/-- The initial allocator state satisfies the representation invariant. -/
theorem allocWF_init (tb : Nat) : AllocWF (init tb) := by
  refine ⟨?_, ?_, ?_, ?_⟩
  · intro s
    simp only [init]
    split
    · exact List.sorted_singleton 0
    · exact List.sorted_nil
  · intro s
    simp only [init]
    split <;> rfl
  · intro s x hx
    simp only [init] at hx
    split at hx
    · rename_i hcond
      simp only [List.mem_singleton] at hx
      subst hx
      rw [hcond.2]
      simpa using largestPow_le hcond.1
    · simp at hx
  · intro s x hx i _ _
    rfl

/-- Coalescing after pushing a popped entry back restores the free list it
was popped from: the push recreates the original entry set, the sort
recreates the original (sorted) order, and the scan merges nothing
because the original list had no coalescible pair. -/
theorem coalesce_restore (st : KVBlockAllocator) (t x : Nat) (rest : List Nat) (F : Nat)
    (hl : st.buddyFreeLists t = x :: rest)
    (hs : List.Sorted (· ≤ ·) (x :: rest))
    (hn : noAdjPair t (x :: rest) = true) :
    buddyCoalesce { st with buddyFreeLists := updateF st.buddyFreeLists t (rest ++ [x]) } F t
      = st := by
  obtain ⟨tb, fl, b⟩ := st
  simp only at hl
  rw [buddyCoalesce]
  simp only [updateF_apply_self]
  by_cases hlen : (rest ++ [x]).length < 2
  · rw [if_pos hlen]
    have hrest : rest = [] := by
      cases rest with
      | nil => rfl
      | cons a l => simp at hlen; omega
    subst hrest
    simp only [List.nil_append]
    rw [← hl, updateF_self]
  · rw [if_neg hlen]
    rw [sortNat_eq_of_sorted (List.perm_append_singleton x rest) hs]
    rw [findAdjacent_eq_none hn]
    simp only [updateF_updateF]
    rw [← hl, updateF_self]

/-- Freeing the handle obtained by popping a size class restores the
allocator state exactly. -/
theorem pop_free_restore (st : KVBlockAllocator) {t x : Nat} {rest : List Nat}
    (hwf : AllocWF st) (ht : 0 < t) (hl : st.buddyFreeLists t = x :: rest) :
    free (popClass st t x rest).2 (popClass st t x rest).1 = st := by
  have hmem : x ∈ st.buddyFreeLists t := by rw [hl]; exact List.mem_cons_self ..
  have hbd := hwf.bounded t x hmem
  have hfr := hwf.freeRuns t x hmem
  have hsorted := hwf.sorted t
  have hnadj := hwf.noAdj t
  rw [hl] at hsorted hnadj
  have hv : (KVHandle.mk (x : Int) (t : Int)).isValid = true := by
    simp [KVHandle.isValid]; omega
  obtain ⟨tb, fl, b⟩ := st
  simp only at hl hbd hfr ⊢
  simp only [popClass, free, hv, Bool.not_true, Bool.false_eq_true, if_false,
    Int.toNat_natCast]
  simp only [updateF_apply_self, updateF_updateF]
  rw [setRange_restore fl x t tb hbd hfr]
  exact coalesce_restore ⟨tb, fl, b⟩ t x rest _ hl hsorted hnadj

/-- Freeing the lower buddy obtained by splitting the doubled size class
restores the allocator state exactly: the two buddies re-coalesce into
the original larger run, which re-coalesces with nothing further. -/
theorem split_free_restore (st : KVBlockAllocator) {t L : Nat} {rest2 : List Nat}
    (hwf : AllocWF st) (ht : 0 < t)
    (hl0 : st.buddyFreeLists t = [])
    (hl2 : st.buddyFreeLists (t * 2) = L :: rest2) :
    free (splitClass st t L rest2).2 (splitClass st t L rest2).1 = st := by
  simp only [splitClass]
  have hmem : L ∈ st.buddyFreeLists (t * 2) := by rw [hl2]; exact List.mem_cons_self ..
  have hbd := hwf.bounded (t * 2) L hmem
  have hfr := hwf.freeRuns (t * 2) L hmem
  have htne : t ≠ t * 2 := by omega
  have hsorted := hwf.sorted (t * 2)
  have hnadj := hwf.noAdj (t * 2)
  rw [hl2] at hsorted hnadj
  have hv : (KVHandle.mk (L : Int) (t : Int)).isValid = true := by
    simp [KVHandle.isValid]; omega
  obtain ⟨tb, fl, b⟩ := st
  simp only at hl0 hl2 hbd hfr ⊢
  -- the list pushed into class t by the split is the single upper buddy
  rw [updateF_apply_ne _ _ htne, hl0, List.nil_append]
  simp only [free, hv, Bool.not_true, Bool.false_eq_true, if_false, Int.toNat_natCast]
  simp only [updateF_apply_self, updateF_updateF]
  rw [setRange_restore fl L t tb (by omega) (fun i h1 h2 => hfr i h1 (by omega))]
  -- evaluate the first coalescing level by hand
  rw [buddyCoalesce]
  simp only [updateF_apply_self]
  rw [if_neg (by simp)]
  simp only [List.singleton_append]
  have hsort : sortNat [L + t, L] = [L, L + t] := by
    refine sortNat_eq_of_sorted ?_ ?_
    · exact List.perm_append_singleton L [L + t]
    · refine List.sorted_cons.mpr ⟨?_, List.sorted_singleton _⟩
      intro y hy
      simp only [List.mem_singleton] at hy
      omega
  rw [hsort]
  have hfind : findAdjacent t [L, L + t] = some (L, []) := by
    simp [findAdjacent]
  rw [hfind]
  simp only [updateF_updateF, updateF_apply_ne _ _ htne, updateF_apply_self]
  have hcollapse : updateF (updateF b (t * 2) rest2) t [] = updateF b (t * 2) rest2 := by
    rw [show ([] : List Nat) = (updateF b (t * 2) rest2) t from by
      rw [updateF_apply_ne _ _ htne, hl0]]
    exact updateF_self _ _
  rw [hcollapse]
  simp only [updateF_updateF]
  rw [updateF_apply_self]
  exact coalesce_restore ⟨tb, fl, b⟩ (t * 2) L rest2 _ hl2 hsorted hnadj

/-- Membership in an updated free-list map comes from the new value or the
old map. -/
theorem updateF_mem {f : Nat → List Nat} {k : Nat} {v : List Nat} {s x : Nat}
    (h : x ∈ updateF f k v s) : (s = k ∧ x ∈ v) ∨ x ∈ f s := by
  by_cases hs : s = k
  · rw [hs, updateF_apply_self] at h; exact Or.inl ⟨hs, h⟩
  · rw [updateF_apply_ne _ _ hs] at h; exact Or.inr h

/-- On failure `buddyAllocate` leaves the state untouched. -/
theorem buddyAllocate_invalid (fuel : Nat) : ∀ (size : Nat) (st : KVBlockAllocator), 0 < size →
    (buddyAllocate st fuel size).1.isValid = false → (buddyAllocate st fuel size).2 = st := by
  induction fuel with
  | zero =>
    intro size st hsz hinv
    rw [buddyAllocate] at hinv ⊢
    rcases hl : st.buddyFreeLists size with _ | ⟨x, rest⟩ <;> simp only [hl] at hinv ⊢
    · by_cases htb : st.totalBlocks < size * 2
      · rw [if_pos htb]
      · rw [if_neg htb] at hinv ⊢
        rcases hl2 : st.buddyFreeLists (size * 2) with _ | ⟨L, rest2⟩ <;>
          simp only [hl2] at hinv ⊢
        exfalso
        simp [splitClass, KVHandle.isValid] at hinv
        omega
    · exfalso
      simp [popClass, KVHandle.isValid] at hinv
      omega
  | succ fuel ih =>
    intro size st hsz hinv
    rw [buddyAllocate] at hinv ⊢
    rcases hl : st.buddyFreeLists size with _ | ⟨x, rest⟩ <;> simp only [hl] at hinv ⊢
    · by_cases htb : st.totalBlocks < size * 2
      · rw [if_pos htb]
      · rw [if_neg htb] at hinv ⊢
        rcases hl2 : st.buddyFreeLists (size * 2) with _ | ⟨L, rest2⟩ <;>
          simp only [hl2] at hinv ⊢
        · exact ih (size * 2) st (by omega) hinv
        · exfalso
          simp [splitClass, KVHandle.isValid] at hinv
          omega
    · exfalso
      simp [popClass, KVHandle.isValid] at hinv
      omega

/-- On success, freeing the very handle `buddyAllocate` returned restores
the allocator state exactly (under the representation invariant). -/
theorem buddyAllocate_roundtrip (fuel : Nat) : ∀ (size : Nat) (st : KVBlockAllocator),
    0 < size → AllocWF st → (buddyAllocate st fuel size).1.isValid = true →
    free (buddyAllocate st fuel size).2 (buddyAllocate st fuel size).1 = st := by
  induction fuel with
  | zero =>
    intro size st hsz hwf hval
    rw [buddyAllocate] at hval ⊢
    rcases hl : st.buddyFreeLists size with _ | ⟨x, rest⟩ <;> simp only [hl] at hval ⊢
    · by_cases htb : st.totalBlocks < size * 2
      · rw [if_pos htb] at hval ⊢
        simp [KVHandle.isValid] at hval
      · rw [if_neg htb] at hval ⊢
        rcases hl2 : st.buddyFreeLists (size * 2) with _ | ⟨L, rest2⟩ <;>
          simp only [hl2] at hval ⊢
        · simp [KVHandle.isValid] at hval
        · exact split_free_restore st hwf hsz hl hl2
    · exact pop_free_restore st hwf hsz hl
  | succ fuel ih =>
    intro size st hsz hwf hval
    rw [buddyAllocate] at hval ⊢
    rcases hl : st.buddyFreeLists size with _ | ⟨x, rest⟩ <;> simp only [hl] at hval ⊢
    · by_cases htb : st.totalBlocks < size * 2
      · rw [if_pos htb] at hval ⊢
        simp [KVHandle.isValid] at hval
      · rw [if_neg htb] at hval ⊢
        rcases hl2 : st.buddyFreeLists (size * 2) with _ | ⟨L, rest2⟩ <;>
          simp only [hl2] at hval ⊢
        · exact ih (size * 2) st (by omega) hwf hval
        · exact split_free_restore st hwf hsz hl hl2
    · exact pop_free_restore st hwf hsz hl

/-! Properties of the power-of-two rounding loop of `allocate`. -/

theorem pow2GeAux_pos (n : Nat) : ∀ (fuel p : Nat), 0 < p → 0 < pow2GeAux n fuel p
  | 0, p, hp => hp
  | fuel + 1, p, hp => by
    unfold pow2GeAux
    by_cases h : p < n
    · rw [if_pos h]; exact pow2GeAux_pos n fuel (p * 2) (by omega)
    · rw [if_neg h]; exact hp

theorem pow2Ge_pos (n : Nat) : 0 < pow2Ge n := pow2GeAux_pos n n 1 (by omega)

theorem pow2GeAux_ge (n : Nat) : ∀ (fuel p : Nat), n ≤ p * 2 ^ fuel → n ≤ pow2GeAux n fuel p
  | 0, p, h => by simpa using h
  | fuel + 1, p, h => by
    unfold pow2GeAux
    by_cases hlt : p < n
    · rw [if_pos hlt]
      refine pow2GeAux_ge n fuel (p * 2) ?_
      rw [pow_succ] at h
      calc n ≤ p * (2 ^ fuel * 2) := h
        _ = p * 2 * 2 ^ fuel := by ring
    · rw [if_neg hlt]; omega

theorem pow2Ge_ge (n : Nat) : n ≤ pow2Ge n := by
  refine pow2GeAux_ge n n 1 ?_
  have := Nat.lt_two_pow n
  omega

theorem pow2GeAux_pow2 (n : Nat) : ∀ (fuel p : Nat), (∃ k, p = 2 ^ k) →
    ∃ k, pow2GeAux n fuel p = 2 ^ k
  | 0, p, hp => hp
  | fuel + 1, p, hp => by
    unfold pow2GeAux
    by_cases h : p < n
    · rw [if_pos h]
      refine pow2GeAux_pow2 n fuel (p * 2) ?_
      obtain ⟨k, hk⟩ := hp
      exact ⟨k + 1, by rw [hk, pow_succ]⟩
    · rw [if_neg h]; exact hp

theorem pow2Ge_pow2 (n : Nat) : ∃ k, pow2Ge n = 2 ^ k :=
  pow2GeAux_pow2 n n 1 ⟨0, rfl⟩

/-! Properties of the `initBuddySystem` loop. -/

theorem largestPowAux_pow2 (tb : Nat) : ∀ (fuel p : Nat), (∃ k, p = 2 ^ k) →
    ∃ k, largestPowAux tb fuel p = 2 ^ k
  | 0, p, hp => hp
  | fuel + 1, p, hp => by
    unfold largestPowAux
    by_cases h : p * 2 ≤ tb
    · rw [if_pos h]
      refine largestPowAux_pow2 tb fuel (p * 2) ?_
      obtain ⟨k, hk⟩ := hp
      exact ⟨k + 1, by rw [hk, pow_succ]⟩
    · rw [if_neg h]; exact hp

theorem largestPow_pow2 (tb : Nat) : ∃ k, largestPow tb = 2 ^ k :=
  largestPowAux_pow2 tb tb 1 ⟨0, rfl⟩

/-- When the pool size is not a power of two the seeded run is a strict
lower part of the pool. -/
theorem largestPow_lt {tb : Nat} (h1 : 1 ≤ tb) (h2 : ¬∃ k, tb = 2 ^ k) :
    largestPow tb < tb := by
  have hle := largestPow_le h1
  rcases Nat.lt_or_ge (largestPow tb) tb with h | h
  · exact h
  · exfalso
    apply h2
    obtain ⟨k, hk⟩ := largestPow_pow2 tb
    exact ⟨k, by omega⟩

/-! Wrappers lifting the buddy lemmas through `allocate`. -/

/-- On failure `allocate` leaves the state untouched. -/
theorem allocate_invalid (st : KVBlockAllocator) (n : Int)
    (h : (allocate st n).1.isValid = false) : (allocate st n).2 = st := by
  unfold allocate at h ⊢
  by_cases hn : n ≤ 0
  · rw [if_pos hn]
  · rw [if_neg hn] at h ⊢
    by_cases htb : st.totalBlocks < pow2Ge n.toNat
    · rw [if_pos htb]
    · rw [if_neg htb] at h ⊢
      exact buddyAllocate_invalid _ _ st (pow2Ge_pos _) h

/-- On success, freeing the handle `allocate` returned restores the
allocator state exactly (under the representation invariant). -/
theorem allocate_roundtrip (st : KVBlockAllocator) (n : Int) (hwf : AllocWF st)
    (h : (allocate st n).1.isValid = true) :
    free (allocate st n).2 (allocate st n).1 = st := by
  unfold allocate at h ⊢
  by_cases hn : n ≤ 0
  · rw [if_pos hn] at h
    simp [KVHandle.isValid] at h
  · rw [if_neg hn] at h ⊢
    by_cases htb : st.totalBlocks < pow2Ge n.toNat
    · rw [if_pos htb] at h
      simp [KVHandle.isValid] at h
    · rw [if_neg htb] at h ⊢
      exact buddyAllocate_roundtrip _ _ st (pow2Ge_pos _) hwf h

/-- Specification of the pop branch of `buddyAllocate` under the
representation invariant. -/
theorem pop_spec (st : KVBlockAllocator) {size x : Nat} {rest : List Nat}
    (hwf : AllocWF st) (hl : st.buddyFreeLists size = x :: rest) :
    (popClass st size x rest).1 = ⟨(x : Int), (size : Int)⟩ ∧
    x + size ≤ st.totalBlocks ∧
    (∀ i, x ≤ i → i < x + size → st.freeList i = true) ∧
    (popClass st size x rest).2.freeList = setRange st.freeList x size false ∧
    (popClass st size x rest).2.totalBlocks = st.totalBlocks := by
  have hmem : x ∈ st.buddyFreeLists size := by rw [hl]; exact List.mem_cons_self ..
  exact ⟨rfl, hwf.bounded size x hmem, hwf.freeRuns size x hmem, rfl, rfl⟩

/-- Specification of the split branch of `buddyAllocate` under the
representation invariant. -/
theorem split_spec (st : KVBlockAllocator) {size L : Nat} {rest2 : List Nat}
    (hwf : AllocWF st) (hl2 : st.buddyFreeLists (size * 2) = L :: rest2) :
    (splitClass st size L rest2).1 = ⟨(L : Int), (size : Int)⟩ ∧
    L + size ≤ st.totalBlocks ∧
    (∀ i, L ≤ i → i < L + size → st.freeList i = true) ∧
    (splitClass st size L rest2).2.freeList = setRange st.freeList L size false ∧
    (splitClass st size L rest2).2.totalBlocks = st.totalBlocks := by
  have hmem : L ∈ st.buddyFreeLists (size * 2) := by rw [hl2]; exact List.mem_cons_self ..
  have hbd := hwf.bounded (size * 2) L hmem
  have hfr := hwf.freeRuns (size * 2) L hmem
  exact ⟨rfl, by omega, fun i h1 h2 => hfr i h1 (by omega), rfl, rfl⟩

/-- Specification of a successful `buddyAllocate`: the returned handle is a
power-of-two run of at least the requested size class, its whole range was
free beforehand, and exactly that range is newly marked used (under the
representation invariant). -/
theorem buddyAllocate_spec (fuel : Nat) : ∀ (size : Nat) (st : KVBlockAllocator),
    0 < size → AllocWF st → (buddyAllocate st fuel size).1.isValid = true →
    ∃ x m : Nat, (buddyAllocate st fuel size).1 = ⟨(x : Int), (m : Int)⟩ ∧
      size ≤ m ∧ (∀ k, size = 2 ^ k → ∃ j, m = 2 ^ j) ∧
      x + m ≤ st.totalBlocks ∧
      (∀ i, x ≤ i → i < x + m → st.freeList i = true) ∧
      (buddyAllocate st fuel size).2.freeList = setRange st.freeList x m false ∧
      (buddyAllocate st fuel size).2.totalBlocks = st.totalBlocks := by
  induction fuel with
  | zero =>
    intro size st hsz hwf hval
    rw [buddyAllocate] at hval ⊢
    rcases hl : st.buddyFreeLists size with _ | ⟨x, rest⟩ <;> simp only [hl] at hval ⊢
    · by_cases htb : st.totalBlocks < size * 2
      · rw [if_pos htb] at hval
        simp [KVHandle.isValid] at hval
      · rw [if_neg htb] at hval ⊢
        rcases hl2 : st.buddyFreeLists (size * 2) with _ | ⟨L, rest2⟩ <;>
          simp only [hl2] at hval ⊢
        · simp [KVHandle.isValid] at hval
        · obtain ⟨h1, h2, h3, h4, h5⟩ := split_spec st hwf hl2
          exact ⟨L, size, h1, le_refl _, fun k hk => ⟨k, hk⟩, h2, h3, h4, h5⟩
    · obtain ⟨h1, h2, h3, h4, h5⟩ := pop_spec st hwf hl
      exact ⟨x, size, h1, le_refl _, fun k hk => ⟨k, hk⟩, h2, h3, h4, h5⟩
  | succ fuel ih =>
    intro size st hsz hwf hval
    rw [buddyAllocate] at hval ⊢
    rcases hl : st.buddyFreeLists size with _ | ⟨x, rest⟩ <;> simp only [hl] at hval ⊢
    · by_cases htb : st.totalBlocks < size * 2
      · rw [if_pos htb] at hval
        simp [KVHandle.isValid] at hval
      · rw [if_neg htb] at hval ⊢
        rcases hl2 : st.buddyFreeLists (size * 2) with _ | ⟨L, rest2⟩ <;>
          simp only [hl2] at hval ⊢
        · obtain ⟨x, m, he, hm, hp2, hxb, hfree, hfl, htot⟩ :=
            ih (size * 2) st (by omega) hwf hval
          exact ⟨x, m, he, by omega, fun k hk => hp2 (k + 1) (by rw [hk, pow_succ]),
            hxb, hfree, hfl, htot⟩
        · obtain ⟨h1, h2, h3, h4, h5⟩ := split_spec st hwf hl2
          exact ⟨L, size, h1, le_refl _, fun k hk => ⟨k, hk⟩, h2, h3, h4, h5⟩
    · obtain ⟨h1, h2, h3, h4, h5⟩ := pop_spec st hwf hl
      exact ⟨x, size, h1, le_refl _, fun k hk => ⟨k, hk⟩, h2, h3, h4, h5⟩

/-- Specification of a successful `allocate` (under the representation
invariant): either the invalid handle with the state untouched, or a
power-of-two handle of at least `n` blocks whose whole range was free and
is exactly the newly used range. -/
theorem allocate_spec (st : KVBlockAllocator) (hwf : AllocWF st) (n : Int) :
    (n ≤ 0 → allocate st n = (⟨-1, 0⟩, st)) ∧
    (0 < n →
      ((allocate st n).1.isValid = false ∧ (allocate st n).2 = st) ∨
      ((allocate st n).1.isValid = true ∧
        ∃ x m : Nat, (allocate st n).1 = ⟨(x : Int), (m : Int)⟩ ∧
          n ≤ (m : Int) ∧ (∃ k, m = 2 ^ k) ∧
          x + m ≤ st.totalBlocks ∧
          (∀ i, x ≤ i → i < x + m → st.freeList i = true) ∧
          (allocate st n).2.freeList = setRange st.freeList x m false ∧
          (allocate st n).2.totalBlocks = st.totalBlocks)) := by
  constructor
  · intro hn
    unfold allocate
    rw [if_pos hn]
  · intro hn
    by_cases hval : (allocate st n).1.isValid = true
    · right
      refine ⟨hval, ?_⟩
      unfold allocate at hval ⊢
      rw [if_neg (by omega)] at hval ⊢
      by_cases htb : st.totalBlocks < pow2Ge n.toNat
      · rw [if_pos htb] at hval
        simp [KVHandle.isValid] at hval
      · rw [if_neg htb] at hval ⊢
        obtain ⟨x, m, he, hm, hp2, hxb, hfree, hfl, htot⟩ :=
          buddyAllocate_spec _ _ st (pow2Ge_pos _) hwf hval
        obtain ⟨k, hk⟩ := pow2Ge_pow2 n.toNat
        refine ⟨x, m, he, ?_, hp2 k hk, hxb, hfree, hfl, htot⟩
        have h1 : n.toNat ≤ pow2Ge n.toNat := pow2Ge_ge _
        omega
    · left
      have hb : (allocate st n).1.isValid = false := by
        cases hbv : (allocate st n).1.isValid
        · rfl
        · exact absurd hbv hval
      exact ⟨hb, allocate_invalid st n hb⟩

/-- Pop branch of `buddyAllocate` keeps all entries, marks and the handle
inside the prefix `[0, P)` and keeps everything at or above `P` free. -/
theorem pop_bdd (P : Nat) (st : KVBlockAllocator) {size x : Nat} {rest : List Nat}
    (hl : st.buddyFreeLists size = x :: rest)
    (hent : ∀ s y, y ∈ st.buddyFreeLists s → y + s ≤ P)
    (hhigh : ∀ i, P ≤ i → st.freeList i = true) :
    (∀ s y, y ∈ (popClass st size x rest).2.buddyFreeLists s → y + s ≤ P) ∧
    (∀ i, P ≤ i → (popClass st size x rest).2.freeList i = true) ∧
    (popClass st size x rest).2.totalBlocks = st.totalBlocks ∧
    ((popClass st size x rest).1.isValid = true →
      (popClass st size x rest).1.startBlockIndex.toNat
        + (popClass st size x rest).1.numBlocks.toNat ≤ P) := by
  have hxbd : x + size ≤ P := hent size x (by rw [hl]; exact List.mem_cons_self ..)
  refine ⟨?_, ?_, rfl, ?_⟩
  · intro s y hy
    simp only [popClass] at hy
    rcases updateF_mem hy with ⟨hsk, hy⟩ | hy
    · rw [hsk]
      exact hent size y (by rw [hl]; exact List.mem_cons_of_mem _ hy)
    · exact hent s y hy
  · intro i hi
    simp only [popClass, setRange]
    rw [if_neg (by omega)]
    exact hhigh i hi
  · intro _
    simp only [popClass, Int.toNat_natCast]
    omega

/-- Split branch of `buddyAllocate` keeps all entries, marks and the handle
inside the prefix `[0, P)` and keeps everything at or above `P` free. -/
theorem split_bdd (P : Nat) (st : KVBlockAllocator) {size L : Nat} {rest2 : List Nat}
    (hl0 : st.buddyFreeLists size = [])
    (hl2 : st.buddyFreeLists (size * 2) = L :: rest2)
    (hent : ∀ s y, y ∈ st.buddyFreeLists s → y + s ≤ P)
    (hhigh : ∀ i, P ≤ i → st.freeList i = true) :
    (∀ s y, y ∈ (splitClass st size L rest2).2.buddyFreeLists s → y + s ≤ P) ∧
    (∀ i, P ≤ i → (splitClass st size L rest2).2.freeList i = true) ∧
    (splitClass st size L rest2).2.totalBlocks = st.totalBlocks ∧
    ((splitClass st size L rest2).1.isValid = true →
      (splitClass st size L rest2).1.startBlockIndex.toNat
        + (splitClass st size L rest2).1.numBlocks.toNat ≤ P) := by
  have hLbd : L + size * 2 ≤ P := hent (size * 2) L (by rw [hl2]; exact List.mem_cons_self ..)
  refine ⟨?_, ?_, rfl, ?_⟩
  · intro s y hy
    simp only [splitClass] at hy
    rcases updateF_mem hy with ⟨hsk, hy⟩ | hy
    · rw [hsk]
      rcases List.mem_append.mp hy with hy | hy
      · rcases updateF_mem hy with ⟨hsk2, hy⟩ | hy
        · have hmem := hent (size * 2) y (by rw [hl2]; exact List.mem_cons_of_mem _ hy)
          omega
        · rw [hl0] at hy
          simp at hy
      · simp only [List.mem_singleton] at hy
        subst hy
        omega
    · rcases updateF_mem hy with ⟨hsk, hy⟩ | hy
      · rw [hsk]
        exact hent (size * 2) y (by rw [hl2]; exact List.mem_cons_of_mem _ hy)
      · exact hent s y hy
  · intro i hi
    simp only [splitClass, setRange]
    rw [if_neg (by omega)]
    exact hhigh i hi
  · intro _
    simp only [splitClass, Int.toNat_natCast]
    omega

/-- All buddy free-list entries, all marks and the returned handle of
`buddyAllocate` stay inside the prefix `[0, P)` of the pool whenever the
incoming state's entries do and everything at or above `P` is free. -/
theorem buddyAllocate_bdd (P : Nat) (fuel : Nat) : ∀ (size : Nat) (st : KVBlockAllocator),
    (∀ s y, y ∈ st.buddyFreeLists s → y + s ≤ P) →
    (∀ i, P ≤ i → st.freeList i = true) →
    ((∀ s y, y ∈ (buddyAllocate st fuel size).2.buddyFreeLists s → y + s ≤ P) ∧
     (∀ i, P ≤ i → (buddyAllocate st fuel size).2.freeList i = true) ∧
     (buddyAllocate st fuel size).2.totalBlocks = st.totalBlocks ∧
     ((buddyAllocate st fuel size).1.isValid = true →
       (buddyAllocate st fuel size).1.startBlockIndex.toNat
         + (buddyAllocate st fuel size).1.numBlocks.toNat ≤ P)) := by
  induction fuel with
  | zero =>
    intro size st hent hhigh
    rw [buddyAllocate]
    rcases hl : st.buddyFreeLists size with _ | ⟨x, rest⟩ <;> simp only [hl]
    · by_cases htb : st.totalBlocks < size * 2
      · rw [if_pos htb]
        exact ⟨hent, hhigh, by trivial, fun h => by simp [KVHandle.isValid] at h⟩
      · rw [if_neg htb]
        rcases hl2 : st.buddyFreeLists (size * 2) with _ | ⟨L, rest2⟩ <;> simp only [hl2]
        · exact ⟨hent, hhigh, by trivial, fun h => by simp [KVHandle.isValid] at h⟩
        · exact split_bdd P st hl hl2 hent hhigh
    · exact pop_bdd P st hl hent hhigh
  | succ fuel ih =>
    intro size st hent hhigh
    rw [buddyAllocate]
    rcases hl : st.buddyFreeLists size with _ | ⟨x, rest⟩ <;> simp only [hl]
    · by_cases htb : st.totalBlocks < size * 2
      · rw [if_pos htb]
        exact ⟨hent, hhigh, by trivial, fun h => by simp [KVHandle.isValid] at h⟩
      · rw [if_neg htb]
        rcases hl2 : st.buddyFreeLists (size * 2) with _ | ⟨L, rest2⟩ <;> simp only [hl2]
        · exact ih (size * 2) st hent hhigh
        · exact split_bdd P st hl hl2 hent hhigh
    · exact pop_bdd P st hl hent hhigh

/-- Coalescing moves entries between size classes but keeps every entry's
run inside `[0, P)`, and never touches the free map or the pool size. -/
theorem buddyCoalesce_bdd (P : Nat) (fuel : Nat) : ∀ (size : Nat) (st : KVBlockAllocator),
    (∀ s y, y ∈ st.buddyFreeLists s → y + s ≤ P) →
    ((∀ s y, y ∈ (buddyCoalesce st fuel size).buddyFreeLists s → y + s ≤ P) ∧
     (buddyCoalesce st fuel size).freeList = st.freeList ∧
     (buddyCoalesce st fuel size).totalBlocks = st.totalBlocks) := by
  induction fuel with
  | zero =>
    intro size st hent
    rw [buddyCoalesce]
    by_cases hlen : (st.buddyFreeLists size).length < 2
    · rw [if_pos hlen]
      exact ⟨hent, by trivial, by trivial⟩
    · rw [if_neg hlen]
      rcases hfa : findAdjacent size (sortNat (st.buddyFreeLists size)) with _ | ⟨b1, rest⟩
      all_goals simp only [hfa]
      · refine ⟨?_, by trivial, by trivial⟩
        intro s y hy
        rcases updateF_mem hy with ⟨hsk, hy⟩ | hy
        · rw [hsk]
          exact hent size y ((sortNat_perm _).mem_iff.mp hy)
        · exact hent s y hy
      · obtain ⟨hm1, hm2, hm3⟩ := findAdjacent_mem hfa
        have hb1 : b1 + size ≤ P := hent size b1 ((sortNat_perm _).mem_iff.mp hm1)
        have hb2 : (b1 + size) + size ≤ P := hent size (b1 + size) ((sortNat_perm _).mem_iff.mp hm2)
        refine ⟨?_, by trivial, by trivial⟩
        intro s y hy
        rcases updateF_mem hy with ⟨hsk, hy⟩ | hy
        · rw [hsk]
          rcases List.mem_append.mp hy with hy | hy
          · rcases updateF_mem hy with ⟨hsk2, hy⟩ | hy
            · have := hent size y ((sortNat_perm _).mem_iff.mp (hm3 y hy))
              omega
            · exact hent (size * 2) y hy
          · simp only [List.mem_singleton] at hy
            subst hy
            omega
        · rcases updateF_mem hy with ⟨hsk2, hy⟩ | hy
          · rw [hsk2]
            exact hent size y ((sortNat_perm _).mem_iff.mp (hm3 y hy))
          · exact hent s y hy
  | succ fuel ih =>
    intro size st hent
    rw [buddyCoalesce]
    by_cases hlen : (st.buddyFreeLists size).length < 2
    · rw [if_pos hlen]
      exact ⟨hent, by trivial, by trivial⟩
    · rw [if_neg hlen]
      rcases hfa : findAdjacent size (sortNat (st.buddyFreeLists size)) with _ | ⟨b1, rest⟩
      all_goals simp only [hfa]
      · refine ⟨?_, by trivial, by trivial⟩
        intro s y hy
        rcases updateF_mem hy with ⟨hsk, hy⟩ | hy
        · rw [hsk]
          exact hent size y ((sortNat_perm _).mem_iff.mp hy)
        · exact hent s y hy
      · obtain ⟨hm1, hm2, hm3⟩ := findAdjacent_mem hfa
        have hb1 : b1 + size ≤ P := hent size b1 ((sortNat_perm _).mem_iff.mp hm1)
        have hb2 : (b1 + size) + size ≤ P := hent size (b1 + size) ((sortNat_perm _).mem_iff.mp hm2)
        have hent2 : ∀ s y, y ∈ (updateF
            (updateF st.buddyFreeLists size rest) (size * 2)
            ((updateF st.buddyFreeLists size rest) (size * 2) ++ [b1])) s → y + s ≤ P := by
          intro s y hy
          rcases updateF_mem hy with ⟨hsk, hy⟩ | hy
          · rw [hsk]
            rcases List.mem_append.mp hy with hy | hy
            · rcases updateF_mem hy with ⟨hsk2, hy⟩ | hy
              · have := hent size y ((sortNat_perm _).mem_iff.mp (hm3 y hy))
                omega
              · exact hent (size * 2) y hy
            · simp only [List.mem_singleton] at hy
              subst hy
              omega
          · rcases updateF_mem hy with ⟨hsk2, hy⟩ | hy
            · rw [hsk2]
              exact hent size y ((sortNat_perm _).mem_iff.mp (hm3 y hy))
            · exact hent s y hy
        obtain ⟨he, hf, ht⟩ := ih (size * 2)
          { totalBlocks := st.totalBlocks, freeList := st.freeList,
            buddyFreeLists :=
              updateF (updateF st.buddyFreeLists size rest) (size * 2)
                ((updateF st.buddyFreeLists size rest) (size * 2) ++ [b1]) } hent2
        exact ⟨he, hf, ht⟩

/-- Freeing a handle lying inside `[0, P)` keeps all entries inside
`[0, P)`, keeps everything at or above `P` free and keeps the pool
size. -/
theorem free_bdd (P : Nat) (st : KVBlockAllocator) (h : KVHandle)
    (hh : h.startBlockIndex.toNat + h.numBlocks.toNat ≤ P)
    (hent : ∀ s y, y ∈ st.buddyFreeLists s → y + s ≤ P)
    (hhigh : ∀ i, P ≤ i → st.freeList i = true) :
    (∀ s y, y ∈ (st.free h).buddyFreeLists s → y + s ≤ P) ∧
    (∀ i, P ≤ i → (st.free h).freeList i = true) ∧
    (st.free h).totalBlocks = st.totalBlocks := by
  unfold free
  cases hv : h.isValid
  · simp only [hv, Bool.not_false, if_true]
    exact ⟨hent, hhigh, by trivial⟩
  · simp only [hv, Bool.not_true, Bool.false_eq_true, if_false]
    have hent2 : ∀ s y,
        y ∈ (updateF st.buddyFreeLists h.numBlocks.toNat
          (st.buddyFreeLists h.numBlocks.toNat ++ [h.startBlockIndex.toNat])) s → y + s ≤ P := by
      intro s y hy
      rcases updateF_mem hy with ⟨hsk, hy⟩ | hy
      · rw [hsk]
        rcases List.mem_append.mp hy with hy | hy
        · exact hent _ y hy
        · simp only [List.mem_singleton] at hy
          subst hy
          omega
      · exact hent s y hy
    obtain ⟨he, hf, ht⟩ := buddyCoalesce_bdd P (st.totalBlocks + 1) h.numBlocks.toNat
      { totalBlocks := st.totalBlocks,
        freeList := setRangeBounded st.freeList h.startBlockIndex.toNat h.numBlocks.toNat
          st.totalBlocks true,
        buddyFreeLists := updateF st.buddyFreeLists h.numBlocks.toNat
          (st.buddyFreeLists h.numBlocks.toNat ++ [h.startBlockIndex.toNat]) } hent2
    refine ⟨he, ?_, ht⟩
    intro i hi
    rw [hf]
    simp only [setRangeBounded]
    split
    · rfl
    · exact hhigh i hi

/-- Allocation keeps all entries inside `[0, P)`, keeps everything at or
above `P` free, keeps the pool size, and any valid handle it returns lies
inside `[0, P)`. -/
theorem allocate_bdd (P : Nat) (st : KVBlockAllocator) (n : Int)
    (hent : ∀ s y, y ∈ st.buddyFreeLists s → y + s ≤ P)
    (hhigh : ∀ i, P ≤ i → st.freeList i = true) :
    (∀ s y, y ∈ (st.allocate n).2.buddyFreeLists s → y + s ≤ P) ∧
    (∀ i, P ≤ i → (st.allocate n).2.freeList i = true) ∧
    (st.allocate n).2.totalBlocks = st.totalBlocks ∧
    ((st.allocate n).1.isValid = true →
      (st.allocate n).1.startBlockIndex.toNat + (st.allocate n).1.numBlocks.toNat ≤ P) := by
  unfold allocate
  by_cases hn : n ≤ 0
  · rw [if_pos hn]
    exact ⟨hent, hhigh, rfl, fun h => by simp [KVHandle.isValid] at h⟩
  · rw [if_neg hn]
    by_cases htb : st.totalBlocks < pow2Ge n.toNat
    · rw [if_pos htb]
      exact ⟨hent, hhigh, rfl, fun h => by simp [KVHandle.isValid] at h⟩
    · rw [if_neg htb]
      exact buddyAllocate_bdd P (st.totalBlocks + 1) (pow2Ge n.toNat) st hent hhigh

/-- Every reachable allocator state satisfies the pool-prefix invariant. -/
theorem reach_bounded {tb : Nat} {st : KVBlockAllocator} {live : List KVHandle}
    (hr : Reach tb st live) : PoolBounded tb st live := by
  induction hr with
  | init =>
    refine ⟨rfl, ?_, ?_, ?_⟩
    · intro s y hy
      simp only [init] at hy
      split at hy
      · rename_i hcond
        simp only [List.mem_singleton] at hy
        subst hy
        rw [hcond.2]
        omega
      · simp at hy
    · intro h hmem
      simp at hmem
    · intro i _
      rfl
  | alloc n hr ih =>
    obtain ⟨htot, hent, hlive, hhigh⟩ := ih
    obtain ⟨hent2, hhigh2, htot2, hhandle⟩ := allocate_bdd (largestPow tb) _ n hent hhigh
    refine ⟨by rw [htot2, htot], hent2, ?_, hhigh2⟩
    intro h hmem
    split at hmem
    · rcases List.mem_cons.mp hmem with hmem | hmem
      · subst hmem
        rename_i hval
        exact hhandle hval
      · exact hlive h hmem
    · exact hlive h hmem
  | free hr hmem ih =>
    rename_i st' live' h'
    obtain ⟨htot, hent, hlive, hhigh⟩ := ih
    obtain ⟨hent2, hhigh2, htot2⟩ := free_bdd (largestPow tb) st' h' (hlive h' hmem) hent hhigh
    exact ⟨by rw [htot2, htot], hent2,
      fun h hm => hlive h (List.mem_of_mem_erase hm), hhigh2⟩

/-- A lower bound on `freeBlocks` from a suffix of the pool known free. -/
theorem freeBlocks_ge (st : KVBlockAllocator) (P : Nat) (hP : P ≤ st.totalBlocks)
    (hfree : ∀ i, P ≤ i → st.freeList i = true) :
    st.totalBlocks - P ≤ st.freeBlocks := by
  unfold freeBlocks
  have hsplit : List.range st.totalBlocks
      = List.range P ++ (List.range (st.totalBlocks - P)).map (fun x => P + x) := by
    rw [← List.range_add]
    congr 1
    omega
  rw [hsplit, List.countP_append]
  have h2 : ((List.range (st.totalBlocks - P)).map (fun x => P + x)).countP st.freeList
      = st.totalBlocks - P := by
    rw [List.countP_eq_length.mpr]
    · simp
    · intro a ha
      simp only [List.mem_map, List.mem_range] at ha
      obtain ⟨x, _, rfl⟩ := ha
      exact hfree _ (by omega)
  omega

/-- Three is not a power of two. -/
theorem three_not_two_pow : ¬∃ k : Nat, 3 = 2 ^ k := by
  rintro ⟨k, hk⟩
  rcases k with _ | _ | k
  · simp at hk
  · simp at hk
  · have h4 : 4 ≤ 2 ^ (k + 2) := by
      have h := Nat.pow_le_pow_right (show 1 ≤ 2 by omega) (show 2 ≤ k + 2 by omega)
      simpa using h
    omega

end KVBlockAllocator

namespace Scheduler

/-- The element removed by the `find_if` scan is an element of the list, up
to permutation with the remainder. -/
theorem removeFirst_perm (id : String) : ∀ {l : List Request} {r : Request} {rest : List Request},
    removeFirst id l = some (r, rest) → l.Perm (r :: rest)
  | [], r, rest, h => by simp [removeFirst] at h
  | a :: l, r, rest, h => by
    unfold removeFirst at h
    by_cases ha : (a.id == id) = true
    · rw [if_pos ha] at h
      injection h with h
      obtain ⟨h1, h2⟩ := Prod.mk.injEq .. ▸ h
      subst h1; subst h2
      exact List.Perm.refl _
    · rw [if_neg (by simpa using ha)] at h
      rcases hrm : removeFirst id l with _ | ⟨x, l2⟩ <;> rw [hrm] at h
      · simp at h
      · injection h with h
        obtain ⟨h1, h2⟩ := Prod.mk.injEq .. ▸ h
        subst h1; subst h2
        exact ((removeFirst_perm id hrm).cons a).trans (List.Perm.swap _ _ _)

/-- The batch-filling loop takes an initial segment of its input. -/
theorem takeLoop_sublist (maxB : Int) : ∀ (l : List Request) (k : Int),
    (takeLoop maxB l k).Sublist l
  | [], _ => List.Sublist.refl _
  | r :: rest, k => by
    unfold takeLoop
    by_cases h : maxB ≤ k + 1
    · rw [if_pos h]
      exact (List.nil_sublist _).cons₂ r
    · rw [if_neg h]
      exact (takeLoop_sublist maxB rest (k + 1)).cons₂ r

/-- The batch-filling loop, started at count `k < maxB`, adds at most
`maxB - k` requests. -/
theorem takeLoop_length (maxB : Int) : ∀ (l : List Request) (k : Int), k < maxB →
    ((takeLoop maxB l k).length : Int) ≤ maxB - k
  | [], k, hk => by
    unfold takeLoop
    simp
    omega
  | r :: rest, k, hk => by
    unfold takeLoop
    by_cases h : maxB ≤ k + 1
    · rw [if_pos h]
      simp
      omega
    · rw [if_neg h]
      have hrec := takeLoop_length maxB rest (k + 1) (by omega)
      simp only [List.length_cons]
      push_cast
      push_cast at hrec
      omega

/-- Finishing a request only moves it between the scheduler's containers and
changes its lifecycle state: the multiset of (id, failed) tags is
unchanged. -/
theorem markRequestFinished_tags (s : Scheduler) (id : String) :
    (((s.markRequestFinished id).activeRequests
        ++ (s.markRequestFinished id).finishedRequests).map reqTag).Perm
      ((s.activeRequests ++ s.finishedRequests).map reqTag) := by
  unfold markRequestFinished
  rcases hrm : removeFirst id s.activeRequests with _ | ⟨r, rest⟩
  · exact List.Perm.refl _
  · simp only
    have hperm := removeFirst_perm id hrm
    have h1 : (rest ++ (s.finishedRequests ++ [{ r with state := .Finished }])).map reqTag
        = ((rest ++ s.finishedRequests) ++ [{ r with state := RequestState.Finished }]).map reqTag := by
      rw [List.append_assoc]
    rw [h1]
    refine (List.Perm.map reqTag (List.perm_append_singleton _ _)).trans ?_
    have h2 : reqTag { r with state := RequestState.Finished } = reqTag r := rfl
    have h3 : ({ r with state := RequestState.Finished } :: (rest ++ s.finishedRequests)).map reqTag
        = ((r :: rest) ++ s.finishedRequests).map reqTag := by
      simp [reqTag]
    rw [h3]
    exact (List.Perm.map reqTag (hperm.append_right _)).symm

end Scheduler

namespace InferenceEngine

/-- A shared-object token append changes neither the id nor the failed flag
of any stored request. -/
theorem writeReq_map_tag (id : String) (t : Int) (l : List Request) :
    (writeReq id (fun r => r.addToken t) l).map reqTag = l.map reqTag := by
  unfold writeReq
  rw [List.map_map]
  apply List.map_congr_left
  intro r _
  by_cases h : (r.id == id) = true <;>
    simp [h, Function.comp, Request.addToken, Request.addGeneratedToken, reqTag]

/-- One row of the decode loop preserves the multiset of (id, failed) tags:
it appends a token and possibly finishes the request but never fails
one. -/
theorem emitRow_tags (e : InferenceEngine) (f : SamplingParams → Except String Int)
    (id : String) :
    (((emitRow e f id).sched.activeRequests
        ++ (emitRow e f id).sched.finishedRequests).map reqTag).Perm
      ((e.sched.activeRequests ++ e.sched.finishedRequests).map reqTag) := by
  unfold emitRow
  rcases hg : e.sched.getRequest id with _ | req <;> simp only [hg]
  · exact List.Perm.refl _
  · simp only [applyReq]
    by_cases hfin : (req.getGeneratedLength + 1 : Int) ≥ req.maxTokens
    · rw [if_pos hfin]
      refine (Scheduler.markRequestFinished_tags _ id).trans ?_
      simp only [List.map_append, writeReq_map_tag]
      exact List.Perm.refl _
    · rw [if_neg hfin]
      simp only [List.map_append, writeReq_map_tag]
      exact List.Perm.refl _

/-- The decode row loop preserves the multiset of (id, failed) tags. -/
theorem emitGo_tags (sample : Nat → SamplingParams → Except String Int) :
    ∀ (l : List String) (j : Nat) (e : InferenceEngine),
    (((emitGo sample l j e).sched.activeRequests
        ++ (emitGo sample l j e).sched.finishedRequests).map reqTag).Perm
      ((e.sched.activeRequests ++ e.sched.finishedRequests).map reqTag)
  | [], _, _ => List.Perm.refl _
  | id :: rest, j, e =>
    (emitGo_tags sample rest (j + 1) (emitRow e (sample j) id)).trans
      (emitRow_tags e (sample j) id)

/-- emitTokens preserves the multiset of (id, failed) tags: no request is
ever marked failed by the decode row loop. -/
theorem emitTokens_tags (e : InferenceEngine) (sample : Nat → SamplingParams → Except String Int)
    (batchIds : List String) (logitsEmpty : Bool) :
    (((e.emitTokens sample batchIds logitsEmpty).sched.activeRequests
        ++ (e.emitTokens sample batchIds logitsEmpty).sched.finishedRequests).map reqTag).Perm
      ((e.sched.activeRequests ++ e.sched.finishedRequests).map reqTag) := by
  unfold emitTokens
  by_cases h : (batchIds.isEmpty || logitsEmpty) = true
  · rw [if_pos h]
  · rw [if_neg h]
    exact emitGo_tags sample batchIds 0 e

/-- Rows whose samplers agree after the fallback behave identically. -/
theorem emitRow_ext (e : InferenceEngine) (f g : SamplingParams → Except String Int)
    (id : String) (h : ∀ p, sampleAndApply (f p) = sampleAndApply (g p)) :
    emitRow e f id = emitRow e g id := by
  unfold emitRow
  rcases hg : e.sched.getRequest id with _ | req <;> simp only [hg]
  rw [h req.samplingParams]

/-- Row loops whose samplers agree after the fallback behave identically. -/
theorem emitGo_ext (f g : Nat → SamplingParams → Except String Int)
    (h : ∀ j p, sampleAndApply (f j p) = sampleAndApply (g j p)) :
    ∀ (l : List String) (j : Nat) (e : InferenceEngine),
    emitGo f l j e = emitGo g l j e
  | [], _, _ => rfl
  | id :: rest, j, e => by
    show emitGo f rest (j + 1) (emitRow e (f j) id) = emitGo g rest (j + 1) (emitRow e (g j) id)
    rw [emitRow_ext e (f j) (g j) id (h j)]
    exact emitGo_ext f g h rest (j + 1) _

end InferenceEngine

/-! Claim theorems.  Each audited claim is settled by exactly one theorem
below, together with its counterexample and witness where applicable. -/

/-- Claim C1: the spec states that a sampled token in the request's
stop-token set finishes the request, and in particular that a request with
stopTokens = {42} whose backend emits 42 on the third decode call is
Finished after exactly 3 generated tokens.  The source's `emitTokens`
checks only `getGeneratedLength() >= getMaxTokens()` and never consults
the stored stop-token set: after three decode ticks whose third sample is
the stop token 42 (with `maxTokens = 50`), the request is still Decoding
with tokens [7, 8, 42] and keeps generating. -/
theorem claim_C1 :
    stopReq.stopTokens = [42] ∧
    (stopEngine3.sched.getRequest "R").map (fun r => r.state) = some RequestState.Decoding ∧
    (stopEngine3.sched.getRequest "R").map (fun r => r.generatedTokens) = some [7, 8, 42] ∧
    (stopEngine3.sched.getRequest "R").map (fun r => r.finished) = some false := by
  decide

/-- Claim C2: the spec states that the cancelled flag is observed at each
decode step and a cancelled request is terminated no later than the next
decode tick in which it appears.  The source's decode path never reads
`isCancelled()`: one full decode tick after `cancel()` the request is
still Decoding, un-failed, and received a fresh token. -/
theorem claim_C2 :
    (cancelEngine.sched.getRequest "C").map (fun r => r.isCancelled) = some true ∧
    (cancelEngine1.sched.getRequest "C").map (fun r => r.state) = some RequestState.Decoding ∧
    (cancelEngine1.sched.getRequest "C").map (fun r => r.generatedTokens) = some [7] ∧
    (cancelEngine1.sched.getRequest "C").map (fun r => r.failed) = some false := by
  decide

/-- Counterexample to claim C3 as stated: `allocate(3)` on a fresh 4-block
pool returns a valid handle of 4 blocks, not exactly 3 — the buddy
allocator rounds every request up to a power of two. -/
theorem claim_C3_counterexample :
    (KVBlockAllocator.allocate (KVBlockAllocator.init 4) 3).1.isValid = true ∧
    (KVBlockAllocator.allocate (KVBlockAllocator.init 4) 3).1.numBlocks = 4 ∧
    ¬(KVBlockAllocator.allocate (KVBlockAllocator.init 4) 3).1.numBlocks = 3 := by
  decide

/-- Claim C3 (amended): for every `n ≤ 0`, `allocate(n)` returns the invalid
handle with the state untouched; for every `n ≥ 1` it either returns the
invalid handle with the state untouched, or a valid handle of a
power-of-two number of blocks at least `n` whose entire range was free,
marking exactly those blocks used. -/
theorem claim_C3 (st : KVBlockAllocator) (hwf : KVBlockAllocator.AllocWF st) (n : Int) :
    (n ≤ 0 → KVBlockAllocator.allocate st n = (⟨-1, 0⟩, st)) ∧
    (0 < n →
      ((KVBlockAllocator.allocate st n).1.isValid = false ∧
        (KVBlockAllocator.allocate st n).2 = st) ∨
      ((KVBlockAllocator.allocate st n).1.isValid = true ∧
        ∃ x m : Nat, (KVBlockAllocator.allocate st n).1 = ⟨(x : Int), (m : Int)⟩ ∧
          n ≤ (m : Int) ∧ (∃ k, m = 2 ^ k) ∧
          x + m ≤ st.totalBlocks ∧
          (∀ i, x ≤ i → i < x + m → st.freeList i = true) ∧
          (KVBlockAllocator.allocate st n).2.freeList = setRange st.freeList x m false ∧
          (KVBlockAllocator.allocate st n).2.totalBlocks = st.totalBlocks)) :=
  KVBlockAllocator.allocate_spec st hwf n

/-- Witness for claim C3 at the fresh 4-block pool and `n = 3`. -/
theorem claim_C3_witness :
    ((3 : Int) ≤ 0 →
      KVBlockAllocator.allocate (KVBlockAllocator.init 4) 3 = (⟨-1, 0⟩, KVBlockAllocator.init 4)) ∧
    ((0 : Int) < 3 →
      ((KVBlockAllocator.allocate (KVBlockAllocator.init 4) 3).1.isValid = false ∧
        (KVBlockAllocator.allocate (KVBlockAllocator.init 4) 3).2 = KVBlockAllocator.init 4) ∨
      ((KVBlockAllocator.allocate (KVBlockAllocator.init 4) 3).1.isValid = true ∧
        ∃ x m : Nat,
          (KVBlockAllocator.allocate (KVBlockAllocator.init 4) 3).1 = ⟨(x : Int), (m : Int)⟩ ∧
          (3 : Int) ≤ (m : Int) ∧ (∃ k, m = 2 ^ k) ∧
          x + m ≤ (KVBlockAllocator.init 4).totalBlocks ∧
          (∀ i, x ≤ i → i < x + m → (KVBlockAllocator.init 4).freeList i = true) ∧
          (KVBlockAllocator.allocate (KVBlockAllocator.init 4) 3).2.freeList
            = setRange (KVBlockAllocator.init 4).freeList x m false ∧
          (KVBlockAllocator.allocate (KVBlockAllocator.init 4) 3).2.totalBlocks
            = (KVBlockAllocator.init 4).totalBlocks)) :=
  claim_C3 (KVBlockAllocator.init 4) (KVBlockAllocator.allocWF_init 4) 3

/-- Counterexample to claim C4 as stated: with a sampler that throws on
row 0, the source's `sampleAndApply` returns fallback token 0 instead of
marking the request Failed — after the batch the request is un-failed,
still Decoding, and carries the fallback token 0, while row 1 was
processed normally. -/
theorem claim_C4_counterexample :
    ((decEngine.emitTokens throwRow0 ["f1", "f2"] false).sched.getRequest "f1").map
        (fun r => (r.failed, r.state, r.generatedTokens))
      = some (false, RequestState.Decoding, [0]) ∧
    ((decEngine.emitTokens throwRow0 ["f1", "f2"] false).sched.getRequest "f2").map
        (fun r => r.generatedTokens) = some [9] := by
  decide

/-- Claim C4 (amended): a decode row whose `sampleToken` throws is handled
inside `sampleAndApply` by substituting the fallback token 0 — the whole
batch behaves exactly as if that row had sampled 0 — and the decode row
loop never marks any request Failed (the multiset of (id, failed) pairs
over the scheduler's containers is preserved); in particular the
remaining rows of the batch are processed unchanged. -/
theorem claim_C4 (e : InferenceEngine) (sample : Nat → SamplingParams → Except String Int)
    (batchIds : List String) (logitsEmpty : Bool) (i : Nat) (err : String)
    (herr : ∀ p, sample i p = Except.error err) :
    e.emitTokens sample batchIds logitsEmpty
      = e.emitTokens (fun j p => if j = i then Except.ok 0 else sample j p) batchIds logitsEmpty ∧
    (((e.emitTokens sample batchIds logitsEmpty).sched.activeRequests
        ++ (e.emitTokens sample batchIds logitsEmpty).sched.finishedRequests).map reqTag).Perm
      ((e.sched.activeRequests ++ e.sched.finishedRequests).map reqTag) := by
  constructor
  · unfold InferenceEngine.emitTokens
    by_cases h : (batchIds.isEmpty || logitsEmpty) = true
    · simp only [if_pos h]
    · simp only [if_neg h]
      apply InferenceEngine.emitGo_ext
      intro j p
      by_cases hj : j = i
      · subst hj
        rw [herr p]
        simp [InferenceEngine.sampleAndApply]
      · simp [hj]
  · exact InferenceEngine.emitTokens_tags e sample batchIds logitsEmpty

/-- Witness for claim C4 at the two-request batch whose row 0 sampler
throws. -/
theorem claim_C4_witness :
    decEngine.emitTokens throwRow0 ["f1", "f2"] false
      = decEngine.emitTokens (fun j p => if j = 0 then Except.ok 0 else throwRow0 j p)
          ["f1", "f2"] false ∧
    (((decEngine.emitTokens throwRow0 ["f1", "f2"] false).sched.activeRequests
        ++ (decEngine.emitTokens throwRow0 ["f1", "f2"] false).sched.finishedRequests).map
        reqTag).Perm
      ((decEngine.sched.activeRequests ++ decEngine.sched.finishedRequests).map reqTag) :=
  claim_C4 decEngine throwRow0 ["f1", "f2"] false 0 "sampler exploded" (fun _ => rfl)

/-- Counterexample to claim C5 as stated: a decode batch of size 2 whose
backend call throws bumps `requestsFailed` by 1, not by the batch size
2 — `handleBackendFailure` performs a single `stats.requestsFailed++`. -/
theorem claim_C5_counterexample :
    (["f1", "f2"] : List String).length = 2 ∧
    decEngine.stats.requestsFailed = 0 ∧
    (decEngine.decodeTick ["f1", "f2"] (Except.error "backend failure")).stats.requestsFailed
      = 1 ∧
    ¬(decEngine.decodeTick ["f1", "f2"] (Except.error "backend failure")).stats.requestsFailed
      = 2 := by
  decide

/-- Claim C5 (amended): when the backend call of a non-empty decode stage
throws, the main loop's catch handler increments `stats.requestsFailed`
by exactly one — independent of the batch size — and changes nothing
else, abandoning the batch (no tokens, no state transitions); the loop
then continues with the next stage. -/
theorem claim_C5 (e : InferenceEngine) (batchIds : List String) (err : String)
    (hne : batchIds ≠ []) :
    e.decodeTick batchIds (Except.error err)
      = { e with stats := { e.stats with requestsFailed := e.stats.requestsFailed + 1 } } := by
  unfold InferenceEngine.decodeTick
  rw [if_neg (by simpa using hne)]
  rfl

/-- Witness for claim C5 at a decode batch of two requests. -/
theorem claim_C5_witness :
    decEngine.decodeTick ["f1", "f2"] (Except.error "backend failure")
      = { decEngine with
          stats := { decEngine.stats with
            requestsFailed := decEngine.stats.requestsFailed + 1 } } :=
  claim_C5 decEngine ["f1", "f2"] "backend failure" (by decide)

/-- Counterexample to claim C6 as stated: `addGeneratedToken` on a request
with `maxTokens = 0` appends the token anyway — the generated count
exceeds `maxTokens` — and the token callback is not invoked. -/
theorem claim_C6_counterexample :
    ((tinyReq.addGeneratedToken 5).generatedTokens.length : Int) > tinyReq.maxTokens ∧
    (tinyReq.addGeneratedToken 5).callbackLog = [] := by
  decide

/-- Claim C6 (amended): `addGeneratedToken(t)` appends `t` to the generated
token sequence unconditionally — it neither enforces the `maxTokens`
bound (the count always grows by one) nor invokes the token callback
(`notifyToken` exists separately but is never called by it). -/
theorem claim_C6 (r : Request) (t : Int) :
    (r.addGeneratedToken t).generatedTokens = r.generatedTokens ++ [t] ∧
    (r.addGeneratedToken t).callbackLog = r.callbackLog ∧
    (r.addGeneratedToken t).generatedTokens.length = r.generatedTokens.length + 1 :=
  ⟨rfl, rfl, by simp [Request.addGeneratedToken]⟩

/-- Counterexample to claim C7 as stated: the parameters
`{temperature = 3, topK = 1, topP = 1, repetitionPenalty = 1}` satisfy
all of the claim's ranges (`temperature ≥ 0` and so on) yet
`setSamplingParams` rejects them — the source also demands
`temperature ≤ 2`. -/
theorem claim_C7_counterexample :
    (0 : Rat) ≤ hotParams.temperature ∧ 1 ≤ hotParams.topK ∧
    0 < hotParams.topP ∧ hotParams.topP ≤ 1 ∧ 1 ≤ hotParams.repetitionPenalty ∧
    tinyReq.setSamplingParams hotParams = Except.error "Invalid sampling parameters" := by
  refine ⟨by decide, by decide, by decide, by decide, by decide, rfl⟩

/-- Claim C7 (amended): `setSamplingParams` accepts a value exactly when
`0 ≤ temperature ≤ 2`, `1 ≤ topK ≤ 100`, `0 < topP ≤ 1` and
`0 ≤ repetitionPenalty ≤ 2`; on acceptance it replaces the parameters, on
rejection it raises the parameter-validation error and the request's
prior parameters stay in place. -/
theorem claim_C7 (r : Request) (p : SamplingParams) :
    (p.isValid = true ↔
      (0 ≤ p.temperature ∧ p.temperature ≤ 2 ∧ 1 ≤ p.topK ∧ p.topK ≤ 100 ∧
        0 < p.topP ∧ p.topP ≤ 1 ∧ 0 ≤ p.repetitionPenalty ∧ p.repetitionPenalty ≤ 2)) ∧
    (p.isValid = true → r.setSamplingParams p = Except.ok { r with samplingParams := p }) ∧
    (p.isValid = false → r.setSamplingParams p = Except.error "Invalid sampling parameters") := by
  refine ⟨?_, ?_, ?_⟩
  · unfold SamplingParams.isValid
    split_ifs with h1 h2 h3 h4
    · simp only [Bool.false_eq_true, false_iff]
      intro hc
      rcases h1 with h | h <;> linarith [hc.1, hc.2.1]
    · simp only [Bool.false_eq_true, false_iff]
      intro hc
      rcases h2 with h | h <;> omega
    · simp only [Bool.false_eq_true, false_iff]
      intro hc
      rcases h3 with h | h <;> linarith [hc.2.2.2.2.1, hc.2.2.2.2.2.1]
    · simp only [Bool.false_eq_true, false_iff]
      intro hc
      rcases h4 with h | h <;> linarith [hc.2.2.2.2.2.2.1, hc.2.2.2.2.2.2.2]
    · push_neg at h1 h2 h3 h4
      constructor
      · intro _
        exact ⟨h1.1, h1.2, h2.1, h2.2, h3.1, h3.2, h4.1, h4.2⟩
      · intro _
        rfl
  · intro h
    simp [Request.setSamplingParams, h]
  · intro h
    simp [Request.setSamplingParams, h]

/-- Witness for claim C7 at accepted parameters. -/
theorem claim_C7_witness :
    tinyReq.setSamplingParams warmParams
      = Except.ok { tinyReq with samplingParams := warmParams } :=
  (claim_C7 tinyReq warmParams).2.1 (by decide)

/-- Counterexample to claim C8 as stated: two Prefilling requests with equal
prompt lengths whose arrival order (timestamps 1 и 2) is opposite to the
admission order come out of `buildPrefillBatch` in admission order
[2, 1], not in arrival order — the comparator sorts by prompt length
only and no arrival-time tie-break exists. -/
theorem claim_C8_counterexample :
    ((tieSched.buildPrefillBatch).requests.map (fun r => r.arrivalTimestampNs)) = [2, 1] ∧
    ((tieSched.buildPrefillBatch).requests.map (fun r => r.getPromptLength)) = [1, 1] ∧
    ¬(2 : Nat) ≤ 1 := by
  decide

/-- Claim C8 (amended): for a scheduler with `maxBatchSize ≥ 1`,
`buildPrefillBatch` returns at most `maxBatchSize` requests, all in state
Prefilling, ordered by ascending prompt length; requests of equal prompt
length appear in active-set (admission) order under the stable model of
`std::sort`, with no arrival-time tie-break. -/
theorem claim_C8 (s : Scheduler) (hmax : 1 ≤ s.maxBatchSize) :
    ((s.buildPrefillBatch).requests.length : Int) ≤ s.maxBatchSize ∧
    (∀ r ∈ (s.buildPrefillBatch).requests, r.state = RequestState.Prefilling) ∧
    (s.buildPrefillBatch).requests.Pairwise
      (fun a b => a.getPromptLength ≤ b.getPromptLength) := by
  haveI ht : IsTrans Request (fun a b => a.getPromptLength ≤ b.getPromptLength) :=
    ⟨fun _ _ _ hab hbc => le_trans hab hbc⟩
  haveI hto : IsTotal Request (fun a b => a.getPromptLength ≤ b.getPromptLength) :=
    ⟨fun a b => Nat.le_total _ _⟩
  unfold Scheduler.buildPrefillBatch
  simp only
  refine ⟨?_, ?_, ?_⟩
  · have h := Scheduler.takeLoop_length s.maxBatchSize
      (List.insertionSort (fun a b => a.getPromptLength ≤ b.getPromptLength)
        (s.activeRequests.filter (fun r => r.state == RequestState.Prefilling))) 0 (by omega)
    omega
  · intro r hr
    have hmem := (Scheduler.takeLoop_sublist s.maxBatchSize _ 0).subset hr
    have hmem2 := (List.perm_insertionSort
      (fun a b : Request => a.getPromptLength ≤ b.getPromptLength) _).mem_iff.mp hmem
    have := (List.mem_filter.mp hmem2).2
    exact of_decide_eq_true this
  · exact List.Pairwise.sublist (Scheduler.takeLoop_sublist s.maxBatchSize _ 0)
      (List.sorted_insertionSort _ _)

/-- Witness for claim C8 at the two-request tie scheduler. -/
theorem claim_C8_witness :
    ((tieSched.buildPrefillBatch).requests.length : Int) ≤ tieSched.maxBatchSize ∧
    (∀ r ∈ (tieSched.buildPrefillBatch).requests, r.state = RequestState.Prefilling) ∧
    (tieSched.buildPrefillBatch).requests.Pairwise
      (fun a b => a.getPromptLength ≤ b.getPromptLength) :=
  claim_C8 tieSched (by decide)

/-- Claim C9: from any allocator state satisfying the representation
invariant, for every fresh id and every `k ≤ totalBlocks · blockSize`,
`allocateFor(id, k)` followed by `freeFor(id)` returns the block
allocator to exactly the state it held before — free map and buddy free
lists included. -/
theorem claim_C9 (c : KVCache) (id : String) (k : Nat)
    (hwf : KVBlockAllocator.AllocWF c.allocator) (hfresh : c.sequences id = none)
    (hk : k ≤ c.allocator.totalBlocks * c.blockSize) :
    (KVCache.freeFor (KVCache.allocateFor c id k).2 id).allocator = c.allocator := by
  unfold KVCache.allocateFor
  rw [hfresh]
  simp only [Option.isSome_none, Bool.false_eq_true, if_false]
  cases hval : (c.allocator.allocate (((k + c.blockSize - 1) / c.blockSize : Nat) : Int)).1.isValid
  · simp only [hval, Bool.not_false, if_true]
    unfold KVCache.freeFor
    simp only [hfresh]
    exact KVBlockAllocator.allocate_invalid _ _ hval
  · simp only [hval, Bool.not_true, Bool.false_eq_true, if_false]
    unfold KVCache.freeFor
    simp only [if_pos]
    exact KVBlockAllocator.allocate_roundtrip _ _ hwf hval

/-- Witness for claim C9 at the fresh 8-block, 2-tokens-per-block cache. -/
theorem claim_C9_witness :
    (KVCache.freeFor (KVCache.allocateFor kvFixture "r1" 5).2 "r1").allocator
      = kvFixture.allocator :=
  claim_C9 kvFixture "r1" 5 (KVBlockAllocator.allocWF_init 8) rfl (by decide)

/-- Claim C10: when `totalBlocks` is not a power of two, in every reachable
allocator state the blocks at indices in
`[largestPow totalBlocks, totalBlocks)` — a non-empty range — are never
part of any handle `allocate` returns and remain marked free in the free
map, so `freeBlocks()` counts at least that many blocks that can never be
handed out. -/
theorem claim_C10 (tb : Nat) (st : KVBlockAllocator) (live : List KVHandle)
    (h1 : 1 ≤ tb) (hnp : ¬∃ k, tb = 2 ^ k) (hr : KVBlockAllocator.Reach tb st live) :
    KVBlockAllocator.largestPow tb < tb ∧
    (∀ i, KVBlockAllocator.largestPow tb ≤ i → i < tb → st.freeList i = true) ∧
    (∀ n : Int, (st.allocate n).1.isValid = true →
      (st.allocate n).1.startBlockIndex.toNat + (st.allocate n).1.numBlocks.toNat
        ≤ KVBlockAllocator.largestPow tb) ∧
    tb - KVBlockAllocator.largestPow tb ≤ st.freeBlocks := by
  obtain ⟨htot, hent, hlive, hhigh⟩ := KVBlockAllocator.reach_bounded hr
  have hlt := KVBlockAllocator.largestPow_lt h1 hnp
  refine ⟨hlt, fun i hi _ => hhigh i hi, ?_, ?_⟩
  · intro n hval
    exact (KVBlockAllocator.allocate_bdd (KVBlockAllocator.largestPow tb) st n hent
      hhigh).2.2.2 hval
  · have hfb := KVBlockAllocator.freeBlocks_ge st (KVBlockAllocator.largestPow tb)
      (by rw [htot]; omega) hhigh
    rw [htot] at hfb
    exact hfb

/-- Witness for claim C10 at the freshly constructed 3-block pool. -/
theorem claim_C10_witness :
    KVBlockAllocator.largestPow 3 < 3 ∧
    (∀ i, KVBlockAllocator.largestPow 3 ≤ i → i < 3 →
      (KVBlockAllocator.init 3).freeList i = true) ∧
    (∀ n : Int, ((KVBlockAllocator.init 3).allocate n).1.isValid = true →
      ((KVBlockAllocator.init 3).allocate n).1.startBlockIndex.toNat
        + ((KVBlockAllocator.init 3).allocate n).1.numBlocks.toNat
        ≤ KVBlockAllocator.largestPow 3) ∧
    3 - KVBlockAllocator.largestPow 3 ≤ (KVBlockAllocator.init 3).freeBlocks :=
  claim_C10 3 (KVBlockAllocator.init 3) [] (by decide)
    KVBlockAllocator.three_not_two_pow KVBlockAllocator.Reach.init

end CortexStream
